import Mathlib

/-!
# Verification of the DocumentInsights heuristic field-extraction engine

This file gives a shallow embedding, in Lean 4, of the invoice field
extraction engine of `src/app.py` (functions `_compile_label_pattern`,
`_norm_amount`, `_norm_date_fragment`, `_extract_dates`, `_label_in`,
`_value_after_delimiter`, `_maybe_vendor`, `extract_invoice_fields`, and the
regular expressions `AMOUNT_RE`, `DATE_RES`, `_PO_TOKEN_RE`,
`_LABEL_PATTERNS`), and proves properties of that embedding.

Modelling conventions:
* Python strings are modelled as `String` / `List Char`; Python's `\w`, `\d`,
  `\s` character classes are modelled on their ASCII behaviour (all inputs of
  interest are ASCII).
* Python `float` amounts are modelled in integer cents (`Nat`): every amount
  `AMOUNT_RE` can produce is a non-negative decimal with at most two fraction
  digits, so cents carry the values, their equalities and their order
  exactly; `centsToQ` maps back to the rational value.  Confidences
  (`0.9`, `0.85`, ...) are likewise stored in hundredths (`90`, `85`, ...),
  with `confToQ` the bridge; the source's `float` comparisons on them are
  order-isomorphic to the `Nat` comparisons.
* Each regular expression is modelled by an explicit backtracking matcher
  with Python's leftmost-match / alternation-order / greedy semantics,
  specialised to the concrete pattern it embeds.
* `_pdf_to_lines` (pypdf) is out of scope; the pipeline is modelled from the
  point where the ordered `(page, text)` line sequence exists.  The
  `"p|||text"` string encoding used by the source is modelled by a genuine
  pair, which is faithful whenever the text does not contain the marker.
* Python `dict` (insertion-ordered, key-unique) is modelled as a list of
  fields updated by `upsert`;  `dict.get` is `lookup_field`.
-/

/-! ## Character classes (Python `\w`, `\d`, `\s` on ASCII) -/

/-- Python `\w` (ASCII): letters, digits and underscore. -/
def isWordChar (c : Char) : Bool := c.isAlphanum || c == '_'

/-- Python `\s` (ASCII): the six whitespace characters. -/
def isPySpace (c : Char) : Bool :=
  c == ' ' || c == '\t' || c == '\n' || c == '\r' || c == '\x0b' || c == '\x0c'

/-- Numeric value of a digit character. -/
def digitVal (c : Char) : Nat := c.toNat - 48

/-- `int(...)` on a digit string. -/
def parseNatDigits (cs : List Char) : Nat :=
  cs.foldl (fun n c => n * 10 + digitVal c) 0

/-- Case-insensitive character comparison (re.I). -/
def ciEq (a b : Char) : Bool := a.toLower == b.toLower

/-- Case-insensitive literal prefix match. -/
def ciPrefixMatch : List Char → List Char → Bool
  | [], _ => true
  | _ :: _, [] => false
  | p :: ps, c :: cs => ciEq p c && ciPrefixMatch ps cs

/-- Negative lookahead `(?!\w)`: the text must not continue with a word char. -/
def noWordAhead (t : List Char) : Bool :=
  match t with
  | [] => true
  | c :: _ => !isWordChar c

/-! ## Label matcher (`_compile_label_pattern`, `_label_in`)

A compiled label pattern is `(?<!\w) w1 \W* w2 \W* ... wn (?!\w)` with the
`wi` the whitespace-split words of the label, matched case-insensitively.
We embed the pattern body as a token list (literal words separated by `\W*`
gaps) and give it a backtracking matcher; for a boolean search the
backtracking order is irrelevant, only existence of a split matters. -/

inductive Tok where
  | word : List Char → Tok
  | gap : Tok
deriving Repr, DecidableEq

/-- Match the token sequence at the start of `t`, ending with `(?!\w)`.
Fuel-based so that the kernel can evaluate it; `fuel = toks.length + t.length + 1`
bounds the recursion depth (every call shrinks `toks` or `t`). -/
def reMatchF : Nat → List Tok → List Char → Bool
  | 0, _, _ => false
  | _ + 1, [], [] => true
  | _ + 1, [], c :: _ => !isWordChar c
  | fuel + 1, Tok.word w :: rest, t => ciPrefixMatch w t && reMatchF fuel rest (t.drop w.length)
  | fuel + 1, Tok.gap :: rest, [] => reMatchF fuel rest []
  | fuel + 1, Tok.gap :: rest, c :: r =>
      reMatchF fuel rest (c :: r) || (!isWordChar c && reMatchF fuel (Tok.gap :: rest) r)

def reMatch (toks : List Tok) (t : List Char) : Bool :=
  reMatchF (toks.length + t.length + 1) toks t

/-- `re.search`: try the pattern at every position; `prevW` tracks whether the
previous character is a word character, for the `(?<!\w)` lookbehind. -/
def reSearchGo (toks : List Tok) : Bool → List Char → Bool
  | prevW, [] => !prevW && reMatch toks []
  | prevW, c :: r => (!prevW && reMatch toks (c :: r)) || reSearchGo toks (isWordChar c) r

/-- Split on runs of whitespace (Python `re.split(r"\s+", ...)` plus the
nonempty filter of `_compile_label_pattern`).  Fuel-based (`t.length + 1`
bounds the recursion depth). -/
def splitWsF : Nat → List Char → List (List Char)
  | 0, _ => []
  | _ + 1, [] => []
  | fuel + 1, c :: r =>
      if isPySpace c then splitWsF fuel r
      else
        (c :: r.takeWhile (fun x => !isPySpace x)) ::
          splitWsF fuel (r.drop (r.takeWhile (fun x => !isPySpace x)).length)

def splitWs (t : List Char) : List (List Char) := splitWsF (t.length + 1) t

/-- `_compile_label_pattern`: words joined by `\W*`. -/
def label_toks (label : String) : List Tok :=
  List.intersperse Tok.gap ((splitWs label.data).map Tok.word)

/-- `_label_in`: does any label of the group match the line? -/
def label_in (s : String) (labels : List String) : Bool :=
  labels.any (fun l => reSearchGo (label_toks l) false s.data)

def TOTAL_LABELS : List String :=
  ["total due", "amount due", "balance due", "total amount due",
   "final amount due", "final amount", "invoice total", "total amount", "total"]

def DATE_LABELS : List String :=
  ["invoice date", "date", "issued on", "issue date", "billing date"]

def PO_LABELS : List String :=
  ["po", "po #", "po no", "purchase order", "purchase order #"]

def VENDOR_HINTS : List String :=
  ["invoice from", "from:", "vendor", "supplier", "billed by"]

/-! ## Amount normalizer (`AMOUNT_RE`, `_norm_amount`)

`AMOUNT_RE` is
`(?<![\w]) ([$£€])? \s* ((?:\d{1,3}(?:,\d{3})+|\d+)(?:\.\d{2})?) (?![\w])`.
The matcher below implements exactly its backtracking behaviour at one
position: the grouped alternative is preferred over plain digits, the
`(?:,\d{3})+` repetition and the optional fraction backtrack against the
final negative lookahead. -/

/-- Candidate end states of `\d{1,3}(?:,\d{3})+`, most groups first (greedy),
paired with the integer value of the digits consumed so far. -/
def moreGroups (v : Nat) (t : List Char) : List (Nat × List Char) :=
  match t with
  | ',' :: a :: b :: c :: r =>
      if a.isDigit && b.isDigit && c.isDigit then
        moreGroups (v * 1000 + (digitVal a * 100 + digitVal b * 10 + digitVal c)) r
          ++ [(v, t)]
      else [(v, t)]
  | _ => [(v, t)]

/-- `(?:\.\d{2})? (?![\w])` after an integer part of value `v`: try the
fraction, then the bare lookahead.  The result is in cents
(`float(amt)` of the source, scaled by 100). -/
def tryFracLook (v : Nat) (t : List Char) : Option Nat :=
  match t with
  | '.' :: a :: b :: r =>
      if a.isDigit && b.isDigit && noWordAhead r then
        some (v * 100 + (digitVal a * 10 + digitVal b))
      else if noWordAhead t then some (v * 100) else none
  | _ => if noWordAhead t then some (v * 100) else none

/-- First candidate whose continuation succeeds. -/
def firstFracLook : List (Nat × List Char) → Option Nat
  | [] => none
  | (v, t) :: rest =>
      match tryFracLook v t with
      | some q => some q
      | none => firstFracLook rest

/-- The numeric body of `AMOUNT_RE` at the start of `t` (value in cents). -/
def matchAmountBody (t : List Char) : Option Nat :=
  let ds := t.takeWhile Char.isDigit
  let t0 := t.drop ds.length
  if ds.isEmpty then none
  else
    let gRes : Option Nat :=
      if ds.length ≤ 3 then
        match t0 with
        | ',' :: a :: b :: c :: r =>
            if a.isDigit && b.isDigit && c.isDigit then
              firstFracLook
                (moreGroups
                  (parseNatDigits ds * 1000 +
                    (digitVal a * 100 + digitVal b * 10 + digitVal c)) r)
            else none
        | _ => none
      else none
    match gRes with
    | some q => some q
    | none => tryFracLook (parseNatDigits ds) t0

/-- `{"$": "USD", "£": "GBP", "€": "EUR"}.get`. -/
def curMap (c : Char) : Option String :=
  if c == '$' then some "USD"
  else if c == '£' then some "GBP"
  else if c == '€' then some "EUR"
  else none

/-- One attempt of `AMOUNT_RE` at the current position (the `(?<![\w])`
lookbehind is checked by the caller). -/
def matchAmountAt (t : List Char) : Option (Nat × Option String) :=
  let cur : Option Char × List Char :=
    match t with
    | c :: r => if c == '$' || c == '£' || c == '€' then (some c, r) else (none, t)
    | [] => (none, t)
  let t2 := cur.2.dropWhile isPySpace
  (matchAmountBody t2).map (fun v => (v, cur.1.bind curMap))

/-- Leftmost search of `AMOUNT_RE`. -/
def searchAmountGo : Bool → List Char → Option (Nat × Option String)
  | prevW, [] =>
      if prevW then none else matchAmountAt []
  | prevW, c :: r =>
      match (if prevW then none else matchAmountAt (c :: r)) with
      | some x => some x
      | none => searchAmountGo (isWordChar c) r

/-- `_norm_amount`: value (in cents) of the first `AMOUNT_RE` match and its
ISO currency code (`None` currency when no symbol).  Total by construction —
absence of a match is `none`, never an error. -/
def norm_amount (s : String) : Option (Nat × Option String) :=
  searchAmountGo false s.data

/-- Rational value of an amount stored in cents. -/
def centsToQ (n : Nat) : ℚ := (n : ℚ) / 100

/-- Rational value of a confidence stored in hundredths. -/
def confToQ (n : Nat) : ℚ := (n : ℚ) / 100

example : norm_amount "Invoice Total: $1,234.56" = some (123456, some "USD") := by decide
example : norm_amount "12345ABC" = none := by decide
example : norm_amount "1,2345" = some (100, none) := by decide
example : norm_amount "no amount here" = none := by decide
example : label_in "Invoice Total: $1,234.56" TOTAL_LABELS = true := by decide
example : label_in "updated" DATE_LABELS = false := by decide
example : label_in "the date: x" DATE_LABELS = true := by decide

/-! ## Date normalizer (`DATE_RES`, `_norm_date_fragment`, `_extract_dates`) -/

/-- A Python `datetime.date`: totally ordered by `(year, month, day)`. -/
structure PyDate where
  year : Nat
  month : Nat
  day : Nat
deriving Repr, DecidableEq

/-- Python `date` comparison (tuple order; months/days of constructed dates
are below 100 so this is the lexicographic order). -/
def PyDate.key (d : PyDate) : Nat := d.year * 10000 + d.month * 100 + d.day

def PyDate.ltb (a b : PyDate) : Bool := a.key < b.key

/-- Gregorian leap year, as `datetime` implements it. -/
def isLeap (y : Nat) : Bool := y % 4 == 0 && (y % 100 != 0 || y % 400 == 0)

def daysInMonth (y m : Nat) : Nat :=
  if m == 2 then (if isLeap y then 29 else 28)
  else if m == 4 || m == 6 || m == 9 || m == 11 then 30
  else 31

/-- `datetime.date(y, m, d)`: `some` iff the arguments form a valid calendar
date (year in `1..9999`), else the constructor raises and the caller's
`except` yields `None`. -/
def mkDate (y m d : Nat) : Option PyDate :=
  if 1 ≤ y && y ≤ 9999 && 1 ≤ m && m ≤ 12 && 1 ≤ d && d ≤ daysInMonth y m then
    some ⟨y, m, d⟩
  else none

/-- `_norm_date_fragment`: two-digit-year pivot at 50, then `date(y, m, d)`
guarded by `try/except`. -/
def norm_date_fragment (y m d : Nat) : Option PyDate :=
  let y' := if y < 100 then (if y < 50 then y + 2000 else y + 1900) else y
  mkDate y' m d

/-- `\d{n}` with the digits returned, `none` if fewer than `n` digits. -/
def takeExactDigits (n : Nat) (t : List Char) : Option (List Char × List Char) :=
  let ds := t.take n
  if ds.length == n && ds.all Char.isDigit then some (ds, t.drop n) else none

/-- Try digit-group lengths in (greedy) preference order, backtracking into
the continuation `k`. -/
def tryLens (lens : List Nat) (t : List Char) (k : List Char → List Char → Option α) :
    Option α :=
  match lens with
  | [] => none
  | n :: ns =>
      match takeExactDigits n t with
      | some (ds, r) =>
          match k ds r with
          | some x => some x
          | none => tryLens ns t k
      | none => tryLens ns t k

/-- `\b` after a digit: end of input or a non-word character. -/
def boundaryAfter (t : List Char) : Bool := noWordAhead t

def sepOk (c : Char) : Bool := c == '/' || c == '-'

/-- One attempt of `\b(\d{1,2})S(\d{1,2})S(\d{2,4})\b` (with `S` the separator class of slash and dash) (the leading
`\b` is checked by the scanner).  Returns the three groups as numbers and the
remainder after the match. -/
def matchNumericAt (t : List Char) : Option ((Nat × Nat × Nat) × List Char) :=
  tryLens [2, 1] t (fun g1 r1 =>
    match r1 with
    | c :: r2 =>
        if sepOk c then
          tryLens [2, 1] r2 (fun g2 r3 =>
            match r3 with
            | c2 :: r4 =>
                if sepOk c2 then
                  tryLens [4, 3, 2] r4 (fun g3 r5 =>
                    if boundaryAfter r5 then
                      some ((parseNatDigits g1, parseNatDigits g2, parseNatDigits g3), r5)
                    else none)
                else none
            | [] => none)
        else none
    | [] => none)

/-- One attempt of `\b(\d{4})-(\d{1,2})-(\d{1,2})\b`. -/
def matchIsoAt (t : List Char) : Option ((Nat × Nat × Nat) × List Char) :=
  tryLens [4] t (fun g1 r1 =>
    match r1 with
    | '-' :: r2 =>
        tryLens [2, 1] r2 (fun g2 r3 =>
          match r3 with
          | '-' :: r4 =>
              tryLens [2, 1] r4 (fun g3 r5 =>
                if boundaryAfter r5 then
                  some ((parseNatDigits g1, parseNatDigits g2, parseNatDigits g3), r5)
                else none)
          | _ => none)
    | _ => none)

/-- The month alternation, in the pattern's order (so `Sep` shadows `Sept`,
exactly as Python's leftmost alternation does). -/
def monthAlts : List (List Char) :=
  ["Jan", "Feb", "Mar", "Apr", "May", "Jun", "Jul", "Aug", "Sep", "Sept",
   "Oct", "Nov", "Dec"].map String.data

/-- First alternative that matches case-insensitively at the head of `t`.
Note: Python's group 1 is the matched *text*, which can differ from the
alternative only in letter case; the source immediately lowercases it, so
returning the alternative is observationally identical. -/
def findMonthAlt (t : List Char) : Option (List Char) :=
  monthAlts.find? (fun a => ciPrefixMatch a t)

/-- `mon_map[x.lower()[:3]]` of the source (keys `jan..dec`; the `sept` key
is unreachable because of the 3-character truncation). -/
def monthNum (alt : List Char) : Nat :=
  let k := (alt.take 3).map Char.toLower
  if k = "jan".data then 1 else if k = "feb".data then 2
  else if k = "mar".data then 3 else if k = "apr".data then 4
  else if k = "may".data then 5 else if k = "jun".data then 6
  else if k = "jul".data then 7 else if k = "aug".data then 8
  else if k = "sep".data then 9 else if k = "oct".data then 10
  else if k = "nov".data then 11 else if k = "dec".data then 12
  else 0

/-- `\s+ (\d{1,2}) ,? \s+ (\d{2,4}) \b` — the day/year tail of the
month-name pattern, starting right after the month's letters. -/
def matchDayYear (t : List Char) : Option ((Nat × Nat) × List Char) :=
  let sp := t.takeWhile isPySpace
  if sp.isEmpty then none
  else
    tryLens [2, 1] (t.drop sp.length) (fun ds r =>
      let attempt : List Char → Option ((Nat × Nat) × List Char) := fun r' =>
        let sp2 := r'.takeWhile isPySpace
        if sp2.isEmpty then none
        else
          tryLens [4, 3, 2] (r'.drop sp2.length) (fun ys r'' =>
            if boundaryAfter r'' then
              some ((parseNatDigits ds, parseNatDigits ys), r'')
            else none)
      match r with
      | ',' :: r' =>
          (match attempt r' with
           | some x => some x
           | none => attempt r)
      | _ => attempt r)

/-- One attempt of
`\b(Jan|...|Dec)[a-z]*\s+(\d{1,2}),?\s+(\d{2,4})\b` (case-insensitive; with
`re.I` the `[a-z]*` also eats uppercase letters). -/
def matchMonthAt (t : List Char) : Option ((List Char × Nat × Nat) × List Char) :=
  match findMonthAlt t with
  | none => none
  | some alt =>
      let t1 := (t.drop alt.length).dropWhile Char.isAlpha
      (matchDayYear t1).map (fun dyr => ((alt, dyr.1.1, dyr.1.2), dyr.2))

/-- `re.finditer`: leftmost, non-overlapping matches.  `prevW` tracks the
word-character status of the previous character for the leading `\b` (every
pattern starts with a word character, so the boundary holds iff to the left
is the start or a non-word character; every match ends in a digit, so after
a match `prevW := true`).  Fuel bounds the recursion (each step consumes at
least one character). -/
def findIterGo (matchAt : List Char → Option (α × List Char)) :
    Nat → Bool → List Char → List α
  | 0, _, _ => []
  | _ + 1, _, [] => []
  | fuel + 1, prevW, c :: r =>
      match (if prevW then none else matchAt (c :: r)) with
      | some (a, rest) => a :: findIterGo matchAt fuel true rest
      | none => findIterGo matchAt fuel (isWordChar c) r

def findIter (matchAt : List Char → Option (α × List Char)) (s : List Char) : List α :=
  findIterGo matchAt (s.length + 1) false s

/-- All matches of the numeric-ambiguous grammar
`\b(\d{1,2})S(\d{1,2})S(\d{2,4})\b` (with `S` the separator class of slash and dash) in a fragment, as
(first, second, third) groups. -/
def numericDateMatches (s : String) : List (Nat × Nat × Nat) :=
  findIter matchNumericAt s.data

def isoDateMatches (s : String) : List (Nat × Nat × Nat) :=
  findIter matchIsoAt s.data

def monthDateMatches (s : String) : List (List Char × Nat × Nat) :=
  findIter matchMonthAt s.data

/-- `_extract_dates`: scan with the three grammars in `DATE_RES` order; the
ISO grammar is read `(year, month, day)`, the numeric-ambiguous one
`(day, month, year)`, the month-name one `(month-name, day, year)`; invalid
calendar combinations are dropped. -/
def extract_dates (s : String) : List PyDate :=
  (isoDateMatches s).filterMap (fun g => norm_date_fragment g.1 g.2.1 g.2.2)
    ++ (numericDateMatches s).filterMap (fun g => norm_date_fragment g.2.2 g.2.1 g.1)
    ++ (monthDateMatches s).filterMap
        (fun g => norm_date_fragment g.2.2 (monthNum g.1) g.2.1)

example : extract_dates "2025-10-15" = [⟨2025, 10, 15⟩] := by decide
example : extract_dates "15/10/2025" = [⟨2025, 10, 15⟩] := by decide
example : extract_dates "3/4/25" = [⟨2025, 4, 3⟩] := by decide
example : extract_dates "12-31-99" = [] := by decide
example : extract_dates "Oct 15, 2025" = [⟨2025, 10, 15⟩] := by decide
example : extract_dates "Sept 5, 25" = [⟨2025, 9, 5⟩] := by decide
example : extract_dates "15 October 2025" = [] := by decide
example : extract_dates "Date: 2025-10-15 and 14/2/21" = [⟨2025, 10, 15⟩, ⟨2021, 2, 14⟩] := by
  decide
example : extract_dates "OCTOBER 15, 2025" = [⟨2025, 10, 15⟩] := by decide
example : extract_dates "Oct 15,2025" = [] := by decide
example : extract_dates "May 1, 100" = [⟨100, 5, 1⟩] := by decide
example : extract_dates "31-12-2025 Jan 1, 2020" = [⟨2025, 12, 31⟩, ⟨2020, 1, 1⟩] := by decide
example : extract_dates "20-10-15" = [⟨2015, 10, 20⟩] := by decide
example : extract_dates "x2025-10-15" = [] := by decide

/-! ## PO token extractor (`_PO_TOKEN_RE`, the PO branch of pass 1) -/

/-- `[A-Z0-9]` under `re.I`: ASCII letters and digits. -/
def isAl (c : Char) : Bool := c.isAlphanum

def poSep (c : Char) : Bool := c == '-' || c == '/' || c == '#'

/-- Greedy continuation of a token: separator (dash, slash or hash)
followed by a nonempty alphanumeric run, repeated. -/
def poTailF : Nat → List Char → List Char → List Char × List Char
  | 0, acc, t => (acc, t)
  | _ + 1, acc, [] => (acc, [])
  | fuel + 1, acc, c :: r =>
      if poSep c then
        let run := r.takeWhile isAl
        if run.isEmpty then (acc, c :: r)
        else poTailF fuel (acc ++ c :: run) (r.drop run.length)
      else (acc, c :: r)

/-- `_PO_TOKEN_RE.findall`: leftmost non-overlapping matches of an
alphanumeric run extended by separator-joined runs (case-insensitive). -/
def findPoTokensF : Nat → List Char → List (List Char)
  | 0, _ => []
  | _ + 1, [] => []
  | fuel + 1, c :: r =>
      if isAl c then
        let run := c :: r.takeWhile isAl
        let rest := r.drop (r.takeWhile isAl).length
        let tr := poTailF (rest.length + 1) run rest
        tr.1 :: findPoTokensF fuel tr.2
      else findPoTokensF fuel r

def findPoTokens (t : List Char) : List (List Char) := findPoTokensF (t.length + 1) t

/-! ## `_value_after_delimiter` and the vendor heuristic (`_maybe_vendor`) -/

/-- Python substring containment (`needle in hay`). -/
def containsSub (needle : List Char) : List Char → Bool
  | [] => needle.isEmpty
  | c :: r => needle.isPrefixOf (c :: r) || containsSub needle r

/-- Python `str.strip()`. -/
def pyStrip (t : List Char) : List Char :=
  ((t.dropWhile isPySpace).reverse.dropWhile isPySpace).reverse

/-- Text after the first occurrence of `delim`, `none` if absent
(`text.split(delim, 1)[1]`). -/
def splitOnceAfter (delim : List Char) : List Char → Option (List Char)
  | [] => if delim.isEmpty then some [] else none
  | c :: r =>
      if delim.isPrefixOf (c :: r) then some ((c :: r).drop delim.length)
      else splitOnceAfter delim r

/-- The delimiters of `_value_after_delimiter`: colon, spaced hyphen, and
spaced en-dash. -/
def VAD_DELIMS : List (List Char) := [":".data, " - ".data, " – ".data]

def vadGo : List (List Char) → List Char → Option (List Char)
  | [], _ => none
  | d :: ds, txt =>
      match splitOnceAfter d txt with
      | some tail =>
          let tl := pyStrip tail
          if tl.isEmpty then vadGo ds txt else some tl
      | none => vadGo ds txt

/-- `_value_after_delimiter`: stripped text after the first delimiter that
yields a nonempty tail. -/
def value_after_delimiter (txt : List Char) : Option (List Char) :=
  vadGo VAD_DELIMS txt

/-- Python `c.islower()`/`c.isupper()`-cased character (ASCII). -/
def pyCased (c : Char) : Bool := c.isUpper || c.isLower

/-- Python `str.isupper()`: at least one cased character and no lowercase. -/
def pyIsUpper (t : List Char) : Bool :=
  t.any pyCased && t.all (fun c => !c.isLower)

/-- Python `str.istitle()`: uppercase only at the start of a cased run,
lowercase only inside one, at least one cased character. -/
def pyIsTitleGo : Bool → Bool → List Char → Bool
  | _, found, [] => found
  | prevCased, found, c :: r =>
      if c.isUpper then
        if prevCased then false else pyIsTitleGo true true r
      else if c.isLower then
        if prevCased then pyIsTitleGo true found r else false
      else pyIsTitleGo false found r

def pyIsTitle (t : List Char) : Bool := pyIsTitleGo false false t

/-- The character class `[A-Za-z0-9&@.\-,' ]` of the weak vendor tier. -/
def vendorCharOk (c : Char) : Bool :=
  c.isAlphanum || c == '&' || c == '@' || c == '.' || c == '-' || c == ',' ||
    c == '\'' || c == ' '

/-- `re.fullmatch(r"[A-Za-z0-9&@.\-,' ]{3,80}", txt)`. -/
def vendorFullmatch (t : List Char) : Bool :=
  decide (3 ≤ t.length) && decide (t.length ≤ 80) && t.all vendorCharOk

/-- `_maybe_vendor` on the text part of a line: strong tier (hint substring
of the lowercased line, candidate after the first delimiter or the whole
line, accepted only when nonempty and at most 80 characters — on rejection
the weak tier is NOT tried), else weak tier (character class plus
all-uppercase or title-case).  Confidences in hundredths. -/
def maybe_vendor (txt : String) : Option (String × Nat) :=
  let t := txt.data
  if t.length < 3 then none
  else if VENDOR_HINTS.any (fun h => containsSub h.data (t.map Char.toLower)) then
    let cand := pyStrip ((value_after_delimiter t).getD t)
    if !cand.isEmpty && cand.length ≤ 80 then some (String.mk cand, 90) else none
  else if vendorFullmatch t && (pyIsUpper t || pyIsTitle t) then some (txt, 40)
  else none

example : findPoTokens "PO-99123 and A/B#C".data =
    ["PO-99123".data, "and".data, "A/B#C".data] := by decide
example : maybe_vendor "Invoice from: Acme Corp" = some ("Acme Corp", 90) := by decide
example : maybe_vendor "ACME CORP" = some ("ACME CORP", 40) := by decide
example : maybe_vendor "Acme Corp" = some ("Acme Corp", 40) := by decide
example : maybe_vendor "acme corp" = none := by decide
example : maybe_vendor "Vendor" = some ("Vendor", 90) := by decide
example : maybe_vendor "x: y" = none := by decide
example : value_after_delimiter "PO Number: PO-99123".data = some "PO-99123".data := by decide
example : value_after_delimiter "a:   ".data = none := by decide
example : value_after_delimiter "a: : b".data = some ": b".data := by decide

/-! ## Data model and resolution pipeline (`extract_invoice_fields`) -/

/-- Typed field payload (`value: Any` of the source): a money amount in
cents, or a string (ISO date, PO token, vendor name). -/
inductive FieldValue where
  | money : Nat → FieldValue
  | str : String → FieldValue
deriving Repr, DecidableEq

/-- `ExtractedField` of the source; `confidence` in hundredths. -/
structure ExtractedField where
  name : String
  value : FieldValue
  type : String
  confidence : Nat
  page : Option Nat := none
  units : Option String := none
  method : Option String := none
  source : Option String := none
deriving Repr, DecidableEq

/-- `ExtractionResult` of the source. -/
structure ExtractionResult where
  fields : List ExtractedField
  pages : Nat
  warnings : List String
deriving Repr, DecidableEq

/-- One `(page, text)` line, as produced by `_pdf_to_lines` (the `"p|||t"`
string encoding is modelled by the pair itself). -/
structure Line where
  page : Nat
  text : String
deriving Repr, DecidableEq

/-- Python `dict` write `fields[name] = f`: replace in place if the key
exists (keeping its position), else append. -/
def upsert (m : List ExtractedField) (f : ExtractedField) : List ExtractedField :=
  if m.any (fun g => g.name == f.name) then
    m.map (fun g => if g.name == f.name then f else g)
  else m ++ [f]

/-- Python `dict` read `fields.get(name)` / `name in fields`. -/
def lookup_field (m : List ExtractedField) (n : String) : Option ExtractedField :=
  m.find? (fun f => f.name == n)

/-- Zero-padded decimal rendering. -/
def padNum (width n : Nat) : String :=
  let s := toString n
  String.mk (List.replicate (width - s.length) '0') ++ s

/-- `date.isoformat()`. -/
def PyDate.iso (d : PyDate) : String :=
  padNum 4 d.year ++ "-" ++ padNum 2 d.month ++ "-" ++ padNum 2 d.day

/-- Python `min` over a nonempty date list (first minimum on ties). -/
def minDate (d : PyDate) : List PyDate → PyDate
  | [] => d
  | e :: r => if PyDate.ltb e d then minDate e r else minDate d r

/-- The `total` branch of pass 1 on one line: a labeled total line whose
`_norm_amount` succeeds yields the field written by the source. -/
def hit_total (l : Line) : Option ExtractedField :=
  if label_in l.text TOTAL_LABELS then
    (norm_amount l.text).map (fun vu =>
      { name := "total", value := FieldValue.money vu.1, type := "currency",
        confidence := 90, page := some l.page, units := some (vu.2.getD "USD"),
        method := some "regex", source := some "label+amount" })
  else none

/-- The `invoiceDate` branch of pass 1 on one line (earliest date on the
line). -/
def hit_date (l : Line) : Option ExtractedField :=
  if label_in l.text DATE_LABELS then
    match extract_dates l.text with
    | [] => none
    | d :: ds =>
        some { name := "invoiceDate", value := FieldValue.str (minDate d ds).iso,
               type := "date", confidence := 85, page := some l.page,
               method := some "regex", source := some "label+date" }
  else none

/-- The `poNumber` branch of pass 1 on one line: first PO token containing a
digit, from the text after the first delimiter (or the whole line). -/
def hit_po (l : Line) : Option ExtractedField :=
  if label_in l.text PO_LABELS then
    match (findPoTokens ((value_after_delimiter l.text.data).getD l.text.data)).find?
        (fun tok => tok.any Char.isDigit) with
    | some tok =>
        some { name := "poNumber", value := FieldValue.str (String.mk tok),
               type := "string", confidence := 80, page := some l.page,
               method := some "regex", source := some "label+token" }
    | none => none
  else none

/-- The vendor field the source writes for a candidate `(value, conf)` found
on page `p`. -/
def mk_vendor_field (v : String) (conf : Nat) (p : Nat) : ExtractedField :=
  { name := "vendor", value := FieldValue.str v, type := "string",
    confidence := conf, page := some p,
    method := some (if conf < 90 then "heuristic" else "label"),
    source := some (if conf < 90 then "header-line" else "label") }

/-- Write a field if the branch produced one. -/
def upd_opt (m : List ExtractedField) : Option ExtractedField → List ExtractedField
  | some f => upsert m f
  | none => m

/-- The vendor branch of pass 1: store the candidate when there is none yet
or when its confidence is `>=` the stored one (`conf >= existing.confidence`
of the source). -/
def vendor_update (m : List ExtractedField) (l : Line) : List ExtractedField :=
  match maybe_vendor l.text with
  | none => m
  | some vc =>
      match lookup_field m "vendor" with
      | none => upsert m (mk_vendor_field vc.1 vc.2 l.page)
      | some ex =>
          if ex.confidence ≤ vc.2 then upsert m (mk_vendor_field vc.1 vc.2 l.page)
          else m

/-- One pass-1 iteration of `extract_invoice_fields`: the four labeled
branches in source order. -/
def pass1_step (m : List ExtractedField) (l : Line) : List ExtractedField :=
  vendor_update (upd_opt (upd_opt (upd_opt m (hit_total l)) (hit_date l)) (hit_po l)) l

/-- Pass 1 over the whole line sequence. -/
def pass1 (ls : List Line) : List ExtractedField :=
  ls.foldl pass1_step []

/-- Pass-2 fallback for `total`: the largest amount anywhere in the document
(`val > best[0]` keeps the first maximum). -/
def fallback_total (ls : List Line) : Option ExtractedField :=
  let best : Option (Nat × Nat × Option String) :=
    ls.foldl (fun b l =>
      match norm_amount l.text with
      | none => b
      | some vu =>
          match b with
          | none => some (vu.1, l.page, vu.2)
          | some bv => if bv.1 < vu.1 then some (vu.1, l.page, vu.2) else b) none
  best.map (fun bv =>
    { name := "total", value := FieldValue.money bv.1, type := "currency",
      confidence := 70, page := some bv.2.1, units := some (bv.2.2.getD "USD"),
      method := some "regex", source := some "max-amount" })

/-- Lexicographic order on `(date, page)` pairs, as Python sorts the tuple
list in the date fallback. -/
def candLtb (a b : PyDate × Nat) : Bool :=
  PyDate.ltb a.1 b.1 || (a.1 == b.1 && a.2 < b.2)

def minCand (c : PyDate × Nat) : List (PyDate × Nat) → PyDate × Nat
  | [] => c
  | e :: r => if candLtb e c then minCand e r else minCand c r

/-- Pass-2 fallback for `invoiceDate`: `sorted(candidates)[0]` — the
globally earliest `(date, page)` pair. -/
def fallback_date (ls : List Line) : Option ExtractedField :=
  let cands := ls.flatMap (fun l => (extract_dates l.text).map (fun d => (d, l.page)))
  match cands with
  | [] => none
  | c :: cs =>
      some { name := "invoiceDate", value := FieldValue.str (minCand c cs).1.iso,
             type := "date", confidence := 60, page := some (minCand c cs).2,
             method := some "regex", source := some "any-date-earliest" }

/-- The pass-2 stage for `total`: run the fallback scan only when the field
is absent, and append the warning when the fallback finds nothing either. -/
def pass2_total (m : List ExtractedField) (ls : List Line) :
    List ExtractedField × List String :=
  match lookup_field m "total" with
  | some _ => (m, [])
  | none =>
      match fallback_total ls with
      | some f => (upsert m f, [])
      | none => (m, ["total:not_found"])

/-- The pass-2 stage for `invoiceDate`. -/
def pass2_date (m : List ExtractedField) (ls : List Line) :
    List ExtractedField × List String :=
  match lookup_field m "invoiceDate" with
  | some _ => (m, [])
  | none =>
      match fallback_date ls with
      | some f => (upsert m f, [])
      | none => (m, ["invoiceDate:not_found"])

/-- `extract_invoice_fields`, from the point where `_pdf_to_lines` has
produced the `(page, text)` sequence and the page count: pass 1 over every
line, then the conditional pass-2 fallbacks for `total` and `invoiceDate`,
appending a `not_found` warning when a fallback also fails. -/
def extract_invoice_fields (ls : List Line) (pages : Nat) : ExtractionResult :=
  let m1 := pass1 ls
  let step2 := pass2_total m1 ls
  let step3 := pass2_date step2.1 ls
  { fields := step3.1, pages := pages, warnings := step2.2 ++ step3.2 }

example :
    extract_invoice_fields [⟨2, "Invoice Total: $1,234.56"⟩] 2 =
      { fields := [{ name := "total", value := FieldValue.money 123456,
                     type := "currency", confidence := 90, page := some 2,
                     units := some "USD", method := some "regex",
                     source := some "label+amount" }],
        pages := 2,
        warnings := ["invoiceDate:not_found"] } := by decide

example :
    lookup_field (extract_invoice_fields [⟨1, "Date: 2025-10-15"⟩] 1).fields "invoiceDate" =
      some { name := "invoiceDate", value := FieldValue.str "2025-10-15",
             type := "date", confidence := 85, page := some 1,
             method := some "regex", source := some "label+date" } := by decide

example :
    lookup_field (extract_invoice_fields [⟨1, "PO Number: PO-99123"⟩] 1).fields "poNumber" =
      some { name := "poNumber", value := FieldValue.str "PO-99123",
             type := "string", confidence := 80, page := some 1,
             method := some "regex", source := some "label+token" } := by decide

example :
    lookup_field (extract_invoice_fields [⟨1, "Invoice from: Acme Corp"⟩] 1).fields "vendor" =
      some { name := "vendor", value := FieldValue.str "Acme Corp",
             type := "string", confidence := 90, page := some 1,
             method := some "label", source := some "label" } := by decide

example :
    lookup_field
      (extract_invoice_fields [⟨1, "widget $50.00"⟩, ⟨3, "shipment $1,200.00"⟩] 3).fields
      "total" =
      some { name := "total", value := FieldValue.money 120000, type := "currency",
             confidence := 70, page := some 3, units := some "USD",
             method := some "regex", source := some "max-amount" } := by decide

example :
    (extract_invoice_fields [⟨1, "nothing here"⟩] 1).warnings =
      ["total:not_found", "invoiceDate:not_found"] := by decide

/-! ## Structural lemmas: `upsert` / `lookup_field` -/

theorem find?_map_key (m : List ExtractedField) (f : ExtractedField) (n : String)
    (hn : f.name ≠ n) :
    (m.map (fun g => if g.name == f.name then f else g)).find? (fun x => x.name == n)
      = m.find? (fun x => x.name == n) := by
  induction m with
  | nil => rfl
  | cons g m ih =>
      rw [List.map_cons]
      by_cases hg : (g.name == f.name) = true
      · have hgname : g.name = f.name := eq_of_beq hg
        have h1 : (f.name == n) = false := beq_eq_false_iff_ne.mpr hn
        have h2 : (g.name == n) = false := beq_eq_false_iff_ne.mpr (hgname ▸ hn)
        rw [if_pos hg]
        simp only [List.find?_cons, h1, h2]
        exact ih
      · rw [if_neg hg]
        cases hgn : (g.name == n) with
        | true => simp only [List.find?_cons, hgn]
        | false =>
            simp only [List.find?_cons, hgn]
            exact ih

theorem find?_map_self (m : List ExtractedField) (f : ExtractedField)
    (hany : m.any (fun g => g.name == f.name) = true) :
    (m.map (fun g => if g.name == f.name then f else g)).find?
        (fun x => x.name == f.name) = some f := by
  induction m with
  | nil => simp at hany
  | cons g m ih =>
      rw [List.map_cons]
      by_cases hg : (g.name == f.name) = true
      · rw [if_pos hg]
        simp only [List.find?_cons, beq_self_eq_true]
      · rw [if_neg hg]
        rw [List.any_cons] at hany
        simp only [hg, Bool.false_or] at hany
        simp only [List.find?_cons, Bool.eq_false_iff.mpr hg]
        exact ih hany

/-- `dict` semantics of `upsert` as seen through `lookup_field`. -/
theorem lookup_upsert (m : List ExtractedField) (f : ExtractedField) (n : String) :
    lookup_field (upsert m f) n = if f.name = n then some f else lookup_field m n := by
  unfold upsert lookup_field
  by_cases hany : m.any (fun g => g.name == f.name) = true
  · rw [if_pos hany]
    by_cases hn : f.name = n
    · subst hn
      rw [if_pos rfl, find?_map_self m f hany]
    · rw [if_neg hn, find?_map_key m f n hn]
  · rw [if_neg hany, List.find?_append]
    by_cases hn : f.name = n
    · subst hn
      have hnone : m.find? (fun x => x.name == f.name) = none := by
        rw [List.find?_eq_none]
        intro a ha hp
        exact hany (List.any_eq_true.mpr ⟨a, ha, hp⟩)
      rw [if_pos rfl, hnone]
      simp [List.find?_cons]
    · have h1 : (f.name == n) = false := beq_eq_false_iff_ne.mpr hn
      rw [if_neg hn]
      simp [List.find?_cons, h1]

/-! ## Shape lemmas for the pass-1 branches -/

theorem hit_total_props (l : Line) (f : ExtractedField) (h : hit_total l = some f) :
    f.name = "total" ∧ f.source = some "label+amount" ∧ f.confidence = 90 := by
  unfold hit_total at h
  split at h
  · cases hm : norm_amount l.text with
    | none => rw [hm] at h; simp at h
    | some vu =>
        rw [hm] at h
        injection h with h1
        subst h1
        exact ⟨rfl, rfl, rfl⟩
  · simp at h

theorem hit_date_props (l : Line) (f : ExtractedField) (h : hit_date l = some f) :
    f.name = "invoiceDate" ∧ f.source = some "label+date" ∧ f.confidence = 85 := by
  unfold hit_date at h
  split at h
  · split at h
    · simp at h
    · cases h
      exact ⟨rfl, rfl, rfl⟩
  · simp at h

theorem hit_po_props (l : Line) (f : ExtractedField) (h : hit_po l = some f) :
    f.name = "poNumber" ∧ f.source = some "label+token" ∧ f.confidence = 80 := by
  unfold hit_po at h
  split at h
  · split at h
    · cases h
      exact ⟨rfl, rfl, rfl⟩
    · simp at h
  · simp at h

theorem fallback_total_props (ls : List Line) (f : ExtractedField)
    (h : fallback_total ls = some f) :
    f.name = "total" ∧ f.source = some "max-amount" ∧ f.confidence = 70 := by
  unfold fallback_total at h
  cases hb : (ls.foldl (fun b l =>
      match norm_amount l.text with
      | none => b
      | some vu =>
          match b with
          | none => some (vu.1, l.page, vu.2)
          | some bv => if bv.1 < vu.1 then some (vu.1, l.page, vu.2) else b) none) with
  | none => rw [hb] at h; simp at h
  | some bv =>
      rw [hb] at h
      injection h with h1
      subst h1
      exact ⟨rfl, rfl, rfl⟩

theorem fallback_date_props (ls : List Line) (f : ExtractedField)
    (h : fallback_date ls = some f) :
    f.name = "invoiceDate" ∧ f.source = some "any-date-earliest" ∧ f.confidence = 60 := by
  unfold fallback_date at h
  simp only [] at h
  split at h
  · simp at h
  · injection h with h1
    subst h1
    exact ⟨rfl, rfl, rfl⟩

/-! ## Per-key behaviour of one pass-1 step -/

theorem lookup_upd_opt_other (m : List ExtractedField) (o : Option ExtractedField)
    (n : String) (h : ∀ f, o = some f → f.name ≠ n) :
    lookup_field (upd_opt m o) n = lookup_field m n := by
  cases o with
  | none => rfl
  | some f =>
      rw [show upd_opt m (some f) = upsert m f from rfl, lookup_upsert,
        if_neg (h f rfl)]

theorem lookup_upd_opt_self (m : List ExtractedField) (o : Option ExtractedField)
    (n : String) (h : ∀ f, o = some f → f.name = n) :
    lookup_field (upd_opt m o) n =
      match o with
      | some f => some f
      | none => lookup_field m n := by
  cases o with
  | none => rfl
  | some f =>
      rw [show upd_opt m (some f) = upsert m f from rfl, lookup_upsert,
        if_pos (h f rfl)]

theorem lookup_vendor_update_other (m : List ExtractedField) (l : Line) (n : String)
    (h : n ≠ "vendor") :
    lookup_field (vendor_update m l) n = lookup_field m n := by
  unfold vendor_update
  have hname : ∀ v c p, (mk_vendor_field v c p).name = "vendor" := fun _ _ _ => rfl
  cases maybe_vendor l.text with
  | none => rfl
  | some vc =>
      dsimp only
      cases lookup_field m "vendor" with
      | none =>
          rw [lookup_upsert]
          exact if_neg (fun he => h he.symm)
      | some ex =>
          dsimp only
          by_cases hc : ex.confidence ≤ vc.2
          · rw [if_pos hc, lookup_upsert]
            exact if_neg (fun he => h he.symm)
          · rw [if_neg hc]

theorem step_total (m : List ExtractedField) (l : Line) :
    lookup_field (pass1_step m l) "total" =
      (hit_total l).or (lookup_field m "total") := by
  unfold pass1_step
  rw [lookup_vendor_update_other _ _ _ (by decide),
    lookup_upd_opt_other _ _ _ (fun f hf => by rw [(hit_po_props l f hf).1]; decide),
    lookup_upd_opt_other _ _ _ (fun f hf => by rw [(hit_date_props l f hf).1]; decide)]
  cases h : hit_total l with
  | some f =>
      rw [show upd_opt m (some f) = upsert m f from rfl, lookup_upsert,
        if_pos (hit_total_props l f h).1]
      rfl
  | none => rfl

theorem step_date (m : List ExtractedField) (l : Line) :
    lookup_field (pass1_step m l) "invoiceDate" =
      (hit_date l).or (lookup_field m "invoiceDate") := by
  unfold pass1_step
  rw [lookup_vendor_update_other _ _ _ (by decide),
    lookup_upd_opt_other _ _ _ (fun f hf => by rw [(hit_po_props l f hf).1]; decide)]
  cases h : hit_date l with
  | some f =>
      rw [show upd_opt (upd_opt m (hit_total l)) (some f)
            = upsert (upd_opt m (hit_total l)) f from rfl,
        lookup_upsert, if_pos (hit_date_props l f h).1]
      rfl
  | none =>
      rw [show upd_opt (upd_opt m (hit_total l)) none = upd_opt m (hit_total l) from rfl,
        lookup_upd_opt_other _ _ _ (fun f hf => by rw [(hit_total_props l f hf).1]; decide)]
      rfl

theorem step_po (m : List ExtractedField) (l : Line) :
    lookup_field (pass1_step m l) "poNumber" =
      (hit_po l).or (lookup_field m "poNumber") := by
  unfold pass1_step
  rw [lookup_vendor_update_other _ _ _ (by decide)]
  cases h : hit_po l with
  | some f =>
      rw [show upd_opt (upd_opt (upd_opt m (hit_total l)) (hit_date l)) (some f)
            = upsert (upd_opt (upd_opt m (hit_total l)) (hit_date l)) f from rfl,
        lookup_upsert, if_pos (hit_po_props l f h).1]
      rfl
  | none =>
      rw [show upd_opt (upd_opt (upd_opt m (hit_total l)) (hit_date l)) none
            = upd_opt (upd_opt m (hit_total l)) (hit_date l) from rfl,
        lookup_upd_opt_other _ _ _ (fun f hf => by rw [(hit_date_props l f hf).1]; decide),
        lookup_upd_opt_other _ _ _ (fun f hf => by rw [(hit_total_props l f hf).1]; decide)]
      rfl

/-! ## Pass-1 as a per-key fold -/

/-- The value left in a key's slot after scanning `ls`: the hit of the last
line that hit (later labeled matches overwrite earlier ones,
unconditionally). -/
def last_hit (hit : Line → Option ExtractedField) (ls : List Line) : Option ExtractedField :=
  ls.foldl (fun acc l => (hit l).or acc) none

theorem last_hit_foldl (hit : Line → Option ExtractedField) (ls : List Line) :
    ∀ acc, ls.foldl (fun acc l => (hit l).or acc) acc = (last_hit hit ls).or acc := by
  induction ls with
  | nil => intro acc; rfl
  | cons l ls ih =>
      intro acc
      show ls.foldl (fun acc l => (hit l).or acc) ((hit l).or acc) = _
      rw [ih]
      have hl : last_hit hit (l :: ls) = (last_hit hit ls).or ((hit l).or none) := by
        show ls.foldl (fun acc l => (hit l).or acc) ((hit l).or none) = _
        rw [ih]
      rw [hl]
      cases last_hit hit ls <;> cases hit l <;> rfl

/-- Unfolding `last_hit` over a cons cell: hits further down the list win. -/
theorem last_hit_cons (hit : Line → Option ExtractedField) (l : Line) (ls : List Line) :
    last_hit hit (l :: ls) = (last_hit hit ls).or (hit l) := by
  show ls.foldl (fun acc l => (hit l).or acc) ((hit l).or none) = _
  rw [last_hit_foldl]
  cases hit l <;> rfl

theorem pass1_fold_lookup (k : String) (hit : Line → Option ExtractedField)
    (hstep : ∀ m l, lookup_field (pass1_step m l) k = (hit l).or (lookup_field m k)) :
    ∀ (ls : List Line) (m : List ExtractedField),
      lookup_field (ls.foldl pass1_step m) k = (last_hit hit ls).or (lookup_field m k) := by
  intro ls
  induction ls with
  | nil => intro m; rfl
  | cons l ls ih =>
      intro m
      show lookup_field (ls.foldl pass1_step (pass1_step m l)) k = _
      rw [ih, hstep, last_hit_cons]
      cases last_hit hit ls <;> cases hit l <;> rfl

theorem pass1_lookup_total (ls : List Line) :
    lookup_field (pass1 ls) "total" = last_hit hit_total ls := by
  rw [show pass1 ls = ls.foldl pass1_step [] from rfl,
    pass1_fold_lookup "total" hit_total step_total ls []]
  cases last_hit hit_total ls <;> rfl

theorem pass1_lookup_date (ls : List Line) :
    lookup_field (pass1 ls) "invoiceDate" = last_hit hit_date ls := by
  rw [show pass1 ls = ls.foldl pass1_step [] from rfl,
    pass1_fold_lookup "invoiceDate" hit_date step_date ls []]
  cases last_hit hit_date ls <;> rfl

theorem pass1_lookup_po (ls : List Line) :
    lookup_field (pass1 ls) "poNumber" = last_hit hit_po ls := by
  rw [show pass1 ls = ls.foldl pass1_step [] from rfl,
    pass1_fold_lookup "poNumber" hit_po step_po ls []]
  cases last_hit hit_po ls <;> rfl

/-- `last_hit` is the last element of the hit sequence. -/
theorem last_hit_eq_getLast (hit : Line → Option ExtractedField) (ls : List Line) :
    last_hit hit ls = (ls.filterMap hit).getLast? := by
  induction ls with
  | nil => rfl
  | cons l ls ih =>
      rw [last_hit_cons, ih, List.filterMap_cons]
      cases hl : hit l with
      | none => cases (ls.filterMap hit).getLast? <;> rfl
      | some f =>
          cases hfm : ls.filterMap hit with
          | nil => rfl
          | cons g gs =>
              have h1 : (f :: g :: gs).getLast? = (g :: gs).getLast? := by
                simp [List.getLast?]
              rw [h1]
              cases hg : (g :: gs).getLast? with
              | none => simp at hg
              | some x => rfl

theorem pass2_total_fst (m : List ExtractedField) (ls : List Line) :
    lookup_field (pass2_total m ls).1 "total" =
      (lookup_field m "total").or (fallback_total ls) := by
  unfold pass2_total
  cases h1 : lookup_field m "total" with
  | some f => exact h1
  | none =>
      cases h2 : fallback_total ls with
      | some f =>
          show lookup_field (upsert m f) "total" = _
          rw [lookup_upsert, if_pos (fallback_total_props ls f h2).1]
          rfl
      | none => exact h1

theorem pass2_total_other (m : List ExtractedField) (ls : List Line) (n : String)
    (hn : n ≠ "total") :
    lookup_field (pass2_total m ls).1 n = lookup_field m n := by
  unfold pass2_total
  cases h1 : lookup_field m "total" with
  | some f => rfl
  | none =>
      cases h2 : fallback_total ls with
      | some f =>
          show lookup_field (upsert m f) n = _
          rw [lookup_upsert,
            if_neg (fun he => hn (((fallback_total_props ls f h2).1 ▸ he).symm))]
      | none => rfl

theorem pass2_total_snd (m : List ExtractedField) (ls : List Line) :
    (pass2_total m ls).2 =
      match lookup_field m "total", fallback_total ls with
      | none, none => ["total:not_found"]
      | _, _ => [] := by
  unfold pass2_total
  cases h1 : lookup_field m "total" with
  | some f => rfl
  | none => cases h2 : fallback_total ls with
    | some f => rfl
    | none => rfl

theorem pass2_date_fst (m : List ExtractedField) (ls : List Line) :
    lookup_field (pass2_date m ls).1 "invoiceDate" =
      (lookup_field m "invoiceDate").or (fallback_date ls) := by
  unfold pass2_date
  cases h1 : lookup_field m "invoiceDate" with
  | some f => exact h1
  | none =>
      cases h2 : fallback_date ls with
      | some f =>
          show lookup_field (upsert m f) "invoiceDate" = _
          rw [lookup_upsert, if_pos (fallback_date_props ls f h2).1]
          rfl
      | none => exact h1

theorem pass2_date_other (m : List ExtractedField) (ls : List Line) (n : String)
    (hn : n ≠ "invoiceDate") :
    lookup_field (pass2_date m ls).1 n = lookup_field m n := by
  unfold pass2_date
  cases h1 : lookup_field m "invoiceDate" with
  | some f => rfl
  | none =>
      cases h2 : fallback_date ls with
      | some f =>
          show lookup_field (upsert m f) n = _
          rw [lookup_upsert,
            if_neg (fun he => hn (((fallback_date_props ls f h2).1 ▸ he).symm))]
      | none => rfl

theorem pass2_date_snd (m : List ExtractedField) (ls : List Line) :
    (pass2_date m ls).2 =
      match lookup_field m "invoiceDate", fallback_date ls with
      | none, none => ["invoiceDate:not_found"]
      | _, _ => [] := by
  unfold pass2_date
  cases h1 : lookup_field m "invoiceDate" with
  | some f => rfl
  | none => cases h2 : fallback_date ls with
    | some f => rfl
    | none => rfl

theorem result_lookup_total (ls : List Line) (pages : Nat) :
    lookup_field (extract_invoice_fields ls pages).fields "total" =
      (lookup_field (pass1 ls) "total").or (fallback_total ls) := by
  show lookup_field (pass2_date (pass2_total (pass1 ls) ls).1 ls).1 "total" = _
  rw [pass2_date_other _ _ _ (by decide), pass2_total_fst]

theorem result_lookup_date (ls : List Line) (pages : Nat) :
    lookup_field (extract_invoice_fields ls pages).fields "invoiceDate" =
      (lookup_field (pass1 ls) "invoiceDate").or (fallback_date ls) := by
  show lookup_field (pass2_date (pass2_total (pass1 ls) ls).1 ls).1 "invoiceDate" = _
  rw [pass2_date_fst, pass2_total_other _ _ _ (by decide)]

theorem result_lookup_other (ls : List Line) (pages : Nat) (n : String)
    (h1 : n ≠ "total") (h2 : n ≠ "invoiceDate") :
    lookup_field (extract_invoice_fields ls pages).fields n =
      lookup_field (pass1 ls) n := by
  show lookup_field (pass2_date (pass2_total (pass1 ls) ls).1 ls).1 n = _
  rw [pass2_date_other _ _ _ h2, pass2_total_other _ _ _ h1]

theorem result_warnings (ls : List Line) (pages : Nat) :
    (extract_invoice_fields ls pages).warnings =
      (match lookup_field (pass1 ls) "total", fallback_total ls with
       | none, none => ["total:not_found"]
       | _, _ => []) ++
      (match lookup_field (pass1 ls) "invoiceDate", fallback_date ls with
       | none, none => ["invoiceDate:not_found"]
       | _, _ => []) := by
  show (pass2_total (pass1 ls) ls).2 ++ (pass2_date (pass2_total (pass1 ls) ls).1 ls).2 = _
  rw [pass2_total_snd, pass2_date_snd,
    pass2_total_other _ _ _ (show "invoiceDate" ≠ "total" by decide)]

/-! ## The vendor slot across pass 1 -/

/-- A vendor candidate: `(value, confidence, page)`. -/
abbrev VendorCand := String × Nat × Nat

/-- Effect of one vendor candidate on the stored vendor field: replace when
there is none or when the new confidence is `>=` the stored one. -/
def vend_step1 (cur : Option ExtractedField) (c : VendorCand) : Option ExtractedField :=
  match cur with
  | none => some (mk_vendor_field c.1 c.2.1 c.2.2)
  | some ex =>
      if ex.confidence ≤ c.2.1 then some (mk_vendor_field c.1 c.2.1 c.2.2) else some ex

def vend_fold (acc : Option ExtractedField) (cs : List VendorCand) : Option ExtractedField :=
  cs.foldl vend_step1 acc

/-- The vendor candidates a line sequence produces, in document order. -/
def vend_cands (ls : List Line) : List VendorCand :=
  ls.filterMap (fun l => (maybe_vendor l.text).map (fun vc => (vc.1, vc.2, l.page)))

theorem step_vendor (m : List ExtractedField) (l : Line) :
    lookup_field (pass1_step m l) "vendor" =
      match (maybe_vendor l.text).map (fun vc => (vc.1, vc.2, l.page)) with
      | none => lookup_field m "vendor"
      | some c => vend_step1 (lookup_field m "vendor") c := by
  unfold pass1_step vendor_update
  have hm3 : lookup_field
      (upd_opt (upd_opt (upd_opt m (hit_total l)) (hit_date l)) (hit_po l)) "vendor" =
      lookup_field m "vendor" := by
    rw [lookup_upd_opt_other _ _ _ (fun f hf => by rw [(hit_po_props l f hf).1]; decide),
      lookup_upd_opt_other _ _ _ (fun f hf => by rw [(hit_date_props l f hf).1]; decide),
      lookup_upd_opt_other _ _ _ (fun f hf => by rw [(hit_total_props l f hf).1]; decide)]
  cases hv : maybe_vendor l.text with
  | none => exact hm3
  | some vc =>
      show _ = vend_step1 (lookup_field m "vendor") (vc.1, vc.2, l.page)
      dsimp only
      rw [hm3]
      cases hcur : lookup_field m "vendor" with
      | none =>
          dsimp only [vend_step1]
          rw [lookup_upsert]
          exact if_pos rfl
      | some ex =>
          dsimp only [vend_step1]
          by_cases hc : ex.confidence ≤ vc.2
          · rw [if_pos hc, lookup_upsert, if_pos hc]
            exact if_pos rfl
          · rw [if_neg hc, hm3, if_neg hc]
            exact hcur

theorem vend_cands_cons (l : Line) (ls : List Line) :
    vend_cands (l :: ls) =
      match (maybe_vendor l.text).map (fun vc => (vc.1, vc.2, l.page)) with
      | none => vend_cands ls
      | some c => c :: vend_cands ls := by
  unfold vend_cands
  rw [List.filterMap_cons]
  cases Option.map (fun vc => (vc.1, vc.2, l.page)) (maybe_vendor l.text) <;> rfl

theorem pass1_fold_vendor :
    ∀ (ls : List Line) (m : List ExtractedField),
      lookup_field (ls.foldl pass1_step m) "vendor" =
        vend_fold (lookup_field m "vendor") (vend_cands ls) := by
  intro ls
  induction ls with
  | nil => intro m; rfl
  | cons l ls ih =>
      intro m
      show lookup_field (ls.foldl pass1_step (pass1_step m l)) "vendor" = _
      rw [ih, step_vendor, vend_cands_cons]
      cases (maybe_vendor l.text).map (fun vc => (vc.1, vc.2, l.page)) with
      | none => rfl
      | some c => rfl

theorem pass1_lookup_vendor (ls : List Line) :
    lookup_field (pass1 ls) "vendor" = vend_fold none (vend_cands ls) :=
  pass1_fold_vendor ls []

/-- The candidate the document-wide rule selects: the one with the highest
confidence, ties resolved in favour of the later-seen candidate. -/
def lastMaxCand : List VendorCand → Option VendorCand
  | [] => none
  | c :: cs =>
      match lastMaxCand cs with
      | none => some c
      | some mx => if c.2.1 ≤ mx.2.1 then some mx else some c

theorem lastMaxCand_concat (cs : List VendorCand) (c : VendorCand) :
    lastMaxCand (cs ++ [c]) =
      match lastMaxCand cs with
      | none => some c
      | some mx => if mx.2.1 ≤ c.2.1 then some c else some mx := by
  induction cs with
  | nil => rfl
  | cons d cs ih =>
      show (match lastMaxCand (cs ++ [c]) with
        | none => some d
        | some mx => if d.2.1 ≤ mx.2.1 then some mx else some d) = _
      rw [ih]
      show _ = match (match lastMaxCand cs with
          | none => some d
          | some mx => if d.2.1 ≤ mx.2.1 then some mx else some d) with
        | none => some c
        | some mxd => if mxd.2.1 ≤ c.2.1 then some c else some mxd
      cases hm : lastMaxCand cs with
      | none => rfl
      | some mx =>
          dsimp only
          by_cases h1 : mx.2.1 ≤ c.2.1
          · rw [if_pos h1]
            by_cases h2 : d.2.1 ≤ mx.2.1
            · rw [if_pos h2]
              dsimp only
              rw [if_pos (Nat.le_trans h2 h1), if_pos h1]
            · rw [if_neg h2]
          · rw [if_neg h1]
            by_cases h2 : d.2.1 ≤ mx.2.1
            · rw [if_pos h2]
              dsimp only
              rw [if_pos h2, if_neg h1]
            · rw [if_neg h2]
              dsimp only
              rw [if_neg (by omega : ¬ d.2.1 ≤ mx.2.1), if_neg (by omega : ¬ d.2.1 ≤ c.2.1)]

theorem vend_fold_lastMax (cs : List VendorCand) :
    vend_fold none cs =
      (lastMaxCand cs).map (fun c => mk_vendor_field c.1 c.2.1 c.2.2) := by
  induction cs using List.reverseRecOn with
  | nil => rfl
  | append_singleton cs c ih =>
      show List.foldl vend_step1 none (cs ++ [c]) = _
      rw [List.foldl_append, lastMaxCand_concat]
      show vend_step1 (vend_fold none cs) c = _
      rw [ih]
      cases hm : lastMaxCand cs with
      | none => rfl
      | some mx =>
          show (if (mk_vendor_field mx.1 mx.2.1 mx.2.2).confidence ≤ c.2.1
              then some (mk_vendor_field c.1 c.2.1 c.2.2)
              else some (mk_vendor_field mx.1 mx.2.1 mx.2.2)) = _
          have hconf : (mk_vendor_field mx.1 mx.2.1 mx.2.2).confidence = mx.2.1 := rfl
          rw [hconf]
          by_cases hc : mx.2.1 ≤ c.2.1
          · simp only [if_pos hc]
            rfl
          · simp only [if_neg hc]
            rfl

/-- `lastMaxCand` of a nonempty list is always `some`. -/
theorem lastMaxCand_isSome (c : VendorCand) (cs : List VendorCand) :
    (lastMaxCand (c :: cs)).isSome = true := by
  show (match lastMaxCand cs with
    | none => some c
    | some mx => if c.2.1 ≤ mx.2.1 then some mx else some c).isSome = true
  cases lastMaxCand cs with
  | none => rfl
  | some mx =>
      dsimp only
      by_cases h : c.2.1 ≤ mx.2.1
      · rw [if_pos h]
        rfl
      · rw [if_neg h]
        rfl

/-- Every candidate's confidence is bounded by the selected one's. -/
theorem lastMaxCand_ub (cs : List VendorCand) (mx : VendorCand)
    (h : lastMaxCand cs = some mx) : ∀ c ∈ cs, c.2.1 ≤ mx.2.1 := by
  induction cs generalizing mx with
  | nil => simp [lastMaxCand] at h
  | cons d cs ih =>
      intro c hc
      rcases List.mem_cons.mp hc with rfl | hmem
      · show c.2.1 ≤ mx.2.1
        cases hm : lastMaxCand cs with
        | none =>
            unfold lastMaxCand at h
            rw [hm] at h
            injection h with h1
            subst h1
            exact Nat.le_refl _
        | some my =>
            unfold lastMaxCand at h
            rw [hm] at h
            dsimp only at h
            by_cases hcy : c.2.1 ≤ my.2.1
            · rw [if_pos hcy] at h
              injection h with h1
              subst h1
              exact hcy
            · rw [if_neg hcy] at h
              injection h with h1
              subst h1
              exact Nat.le_refl _
      · cases hm : lastMaxCand cs with
        | none =>
            rcases cs with _ | ⟨e, cs⟩
            · simp at hmem
            · have hS := lastMaxCand_isSome e cs
              rw [hm] at hS
              simp at hS
        | some my =>
            have hy := ih my hm _ hmem
            unfold lastMaxCand at h
            rw [hm] at h
            dsimp only at h
            by_cases hcy : d.2.1 ≤ my.2.1
            · rw [if_pos hcy] at h
              injection h with h1
              subst h1
              exact hy
            · rw [if_neg hcy] at h
              injection h with h1
              subst h1
              omega

/-- The selected candidate is one of the candidates. -/
theorem lastMaxCand_mem (cs : List VendorCand) (mx : VendorCand)
    (h : lastMaxCand cs = some mx) : mx ∈ cs := by
  induction cs generalizing mx with
  | nil => simp [lastMaxCand] at h
  | cons d cs ih =>
      cases hm : lastMaxCand cs with
      | none =>
          unfold lastMaxCand at h
          rw [hm] at h
          injection h with h1
          subst h1
          exact List.mem_cons_self _ _
      | some my =>
          unfold lastMaxCand at h
          rw [hm] at h
          dsimp only at h
          by_cases hcy : d.2.1 ≤ my.2.1
          · rw [if_pos hcy] at h
            injection h with h1
            subst h1
            exact List.mem_cons_of_mem _ (ih _ hm)
          · rw [if_neg hcy] at h
            injection h with h1
            subst h1
            exact List.mem_cons_self _ _

/-! ## Supporting invariants for the claims -/

theorem mem_of_getLast?_field (l : List ExtractedField) (a : ExtractedField)
    (h : l.getLast? = some a) : a ∈ l := by
  rcases List.mem_getLast?_eq_getLast (Option.mem_def.mpr h) with ⟨hne, rfl⟩
  exact List.getLast_mem hne

theorem pass1_total_source (ls : List Line) (f : ExtractedField)
    (h : lookup_field (pass1 ls) "total" = some f) : f.source = some "label+amount" := by
  rw [pass1_lookup_total, last_hit_eq_getLast] at h
  rcases List.mem_filterMap.mp (mem_of_getLast?_field _ _ h) with ⟨l, _, hl⟩
  exact (hit_total_props l f hl).2.1

theorem pass1_date_source (ls : List Line) (f : ExtractedField)
    (h : lookup_field (pass1 ls) "invoiceDate" = some f) : f.source = some "label+date" := by
  rw [pass1_lookup_date, last_hit_eq_getLast] at h
  rcases List.mem_filterMap.mp (mem_of_getLast?_field _ _ h) with ⟨l, _, hl⟩
  exact (hit_date_props l f hl).2.1

/-- A constructed date carries exactly the arguments of `date(y, m, d)`. -/
theorem mkDate_shape (y m d : Nat) (dt : PyDate) (h : mkDate y m d = some dt) :
    dt.year = y ∧ dt.month = m ∧ dt.day = d := by
  unfold mkDate at h
  split at h
  · injection h with h1
    subst h1
    exact ⟨rfl, rfl, rfl⟩
  · exact absurd h (by simp)

/-- The pivot of `_norm_date_fragment`, read off its result. -/
theorem norm_date_fragment_shape (y m d : Nat) (dt : PyDate)
    (h : norm_date_fragment y m d = some dt) :
    dt.year = (if y < 100 then (if y < 50 then 2000 + y else 1900 + y) else y) ∧
      dt.month = m ∧ dt.day = d := by
  have hy : norm_date_fragment y m d =
      mkDate (if y < 100 then (if y < 50 then y + 2000 else y + 1900) else y) m d := rfl
  rw [hy] at h
  have hs := mkDate_shape _ _ _ _ h
  refine ⟨?_, hs.2.1, hs.2.2⟩
  rw [hs.1]
  split_ifs <;> omega

/-! ## The claims -/

/-- C1: every match of the numeric-ambiguous date grammar (two 1-2-digit
groups and a 2-4-digit year separated by slash or dash) is interpreted as
day-month-year — the first group is the day, the second the month, the third
the year — and a two-digit year value `y` is pivoted at 50: `y < 50` gives
`2000 + y`, `y ≥ 50` gives `1900 + y`.  Stated on the embedding: whenever
the groups form a valid calendar date under that reading, exactly that date
is what `_extract_dates` reports for the match. -/
theorem numeric_dates_are_dmy_with_pivot (s : String) (a b c : Nat) (dt : PyDate)
    (hm : (a, b, c) ∈ numericDateMatches s)
    (hn : norm_date_fragment c b a = some dt) :
    dt ∈ extract_dates s ∧ dt.day = a ∧ dt.month = b ∧
      dt.year = (if c < 100 then (if c < 50 then 2000 + c else 1900 + c) else c) := by
  refine ⟨?_, ?_⟩
  · unfold extract_dates
    refine List.mem_append.mpr (Or.inl (List.mem_append.mpr (Or.inr ?_)))
    exact List.mem_filterMap.mpr ⟨(a, b, c), hm, hn⟩
  · have h := norm_date_fragment_shape c b a dt hn
    exact ⟨h.2.2, h.2.1, h.1⟩

theorem numeric_dates_are_dmy_with_pivot_witness :
    ((3, 4, 25) ∈ numericDateMatches "3/4/25" ∧
      norm_date_fragment 25 4 3 = some ⟨2025, 4, 3⟩) ∧
    ((⟨2025, 4, 3⟩ : PyDate) ∈ extract_dates "3/4/25" ∧
      (⟨2025, 4, 3⟩ : PyDate).day = 3 ∧ (⟨2025, 4, 3⟩ : PyDate).month = 4 ∧
      (⟨2025, 4, 3⟩ : PyDate).year =
        (if 25 < 100 then (if 25 < 50 then 2000 + 25 else 1900 + 25) else 25)) :=
  ⟨⟨by decide, by decide⟩,
    numeric_dates_are_dmy_with_pivot "3/4/25" 3 4 25 ⟨2025, 4, 3⟩ (by decide) (by decide)⟩

/-- C3: the pass-2 fallback for `total` (resp. `invoiceDate`) fires if and
only if the field is absent after pass 1: when pass 1 resolved the field the
result carries exactly the pass-1 field, whose source is `label+amount`
(resp. `label+date`) and never `max-amount` (resp. `any-date-earliest`);
when pass 1 left it absent, the result's field is exactly the fallback
scan's output. -/
theorem fallback_gating (ls : List Line) (pages : Nat) :
    ((lookup_field (pass1 ls) "total").isSome = true →
      lookup_field (extract_invoice_fields ls pages).fields "total" =
        lookup_field (pass1 ls) "total" ∧
      ∀ f, lookup_field (extract_invoice_fields ls pages).fields "total" = some f →
        f.source = some "label+amount" ∧ f.source ≠ some "max-amount") ∧
    (lookup_field (pass1 ls) "total" = none →
      lookup_field (extract_invoice_fields ls pages).fields "total" = fallback_total ls) ∧
    ((lookup_field (pass1 ls) "invoiceDate").isSome = true →
      lookup_field (extract_invoice_fields ls pages).fields "invoiceDate" =
        lookup_field (pass1 ls) "invoiceDate" ∧
      ∀ f, lookup_field (extract_invoice_fields ls pages).fields "invoiceDate" = some f →
        f.source = some "label+date" ∧ f.source ≠ some "any-date-earliest") ∧
    (lookup_field (pass1 ls) "invoiceDate" = none →
      lookup_field (extract_invoice_fields ls pages).fields "invoiceDate" =
        fallback_date ls) := by
  refine ⟨?_, ?_, ?_, ?_⟩
  · intro h
    cases hm : lookup_field (pass1 ls) "total" with
    | none => rw [hm] at h; simp at h
    | some f =>
        have he : lookup_field (extract_invoice_fields ls pages).fields "total" = some f := by
          rw [result_lookup_total, hm]
          rfl
        refine ⟨by rw [he], ?_⟩
        intro g hg
        rw [he] at hg
        injection hg with h1
        subst h1
        have hs := pass1_total_source ls f hm
        exact ⟨hs, by rw [hs]; decide⟩
  · intro h
    rw [result_lookup_total, h]
    rfl
  · intro h
    cases hm : lookup_field (pass1 ls) "invoiceDate" with
    | none => rw [hm] at h; simp at h
    | some f =>
        have he : lookup_field (extract_invoice_fields ls pages).fields "invoiceDate"
            = some f := by
          rw [result_lookup_date, hm]
          rfl
        refine ⟨by rw [he], ?_⟩
        intro g hg
        rw [he] at hg
        injection hg with h1
        subst h1
        have hs := pass1_date_source ls f hm
        exact ⟨hs, by rw [hs]; decide⟩
  · intro h
    rw [result_lookup_date, h]
    rfl

theorem fallback_gating_witness :
    ((lookup_field (pass1 [⟨1, "Total: $5.00"⟩]) "total").isSome = true ∧
      lookup_field (extract_invoice_fields [⟨1, "Total: $5.00"⟩] 1).fields "total" =
        lookup_field (pass1 [⟨1, "Total: $5.00"⟩]) "total") ∧
    (lookup_field (pass1 [⟨1, "no labels here"⟩]) "invoiceDate" = none ∧
      lookup_field (extract_invoice_fields [⟨1, "no labels here"⟩] 1).fields "invoiceDate" =
        fallback_date [⟨1, "no labels here"⟩]) :=
  ⟨⟨by decide, ((fallback_gating [⟨1, "Total: $5.00"⟩] 1).1 (by decide)).1⟩,
    ⟨by decide, (fallback_gating [⟨1, "no labels here"⟩] 1).2.2.2 (by decide)⟩⟩

/-- C4: for each of `total` and `invoiceDate`, the name appears in exactly
one of the result's fields and the result's warnings: the field is resolved
iff its `not_found` warning is absent — never both, never neither. -/
theorem field_warning_exclusive (ls : List Line) (pages : Nat) :
    ((lookup_field (extract_invoice_fields ls pages).fields "total").isSome = true ↔
      "total:not_found" ∉ (extract_invoice_fields ls pages).warnings) ∧
    ((lookup_field (extract_invoice_fields ls pages).fields "invoiceDate").isSome = true ↔
      "invoiceDate:not_found" ∉ (extract_invoice_fields ls pages).warnings) := by
  rw [result_lookup_total, result_lookup_date, result_warnings]
  cases h1 : lookup_field (pass1 ls) "total" <;>
    cases h2 : fallback_total ls <;>
    cases h3 : lookup_field (pass1 ls) "invoiceDate" <;>
    cases h4 : fallback_date ls <;>
    simp

/-- C5: during pass 1, for each of `total`, `invoiceDate` and `poNumber`, a
later labeled match overwrites an earlier one unconditionally
(last-label-match-wins, not confidence-gated): with at least two labeled
hits, the result carries exactly the field derived from the last hitting
line. -/
theorem last_label_match_wins (ls : List Line) (pages : Nat) (name : String)
    (hit : Line → Option ExtractedField)
    (hmem : (name, hit) ∈
      [("total", hit_total), ("invoiceDate", hit_date), ("poNumber", hit_po)])
    (hcount : 2 ≤ (ls.filterMap hit).length) :
    lookup_field (extract_invoice_fields ls pages).fields name =
      (ls.filterMap hit).getLast? := by
  have hne : ls.filterMap hit ≠ [] := by
    intro he
    rw [he] at hcount
    simp at hcount
  have hlast : ∃ f, (ls.filterMap hit).getLast? = some f := by
    cases hg : (ls.filterMap hit).getLast? with
    | none => exact absurd (by simpa using List.getLast?_eq_none_iff.mp hg) hne
    | some f => exact ⟨f, rfl⟩
  rcases hlast with ⟨f, hf⟩
  simp only [List.mem_cons, List.mem_singleton, List.not_mem_nil, or_false] at hmem
  rcases hmem with h | h | h <;>
    (have h1 : name = _ := congrArg Prod.fst h) <;>
    (have h2 : hit = _ := congrArg Prod.snd h) <;> subst h1 <;> subst h2
  · rw [result_lookup_total, pass1_lookup_total, last_hit_eq_getLast, hf]
    rfl
  · rw [result_lookup_date, pass1_lookup_date, last_hit_eq_getLast, hf]
    rfl
  · rw [result_lookup_other _ _ _ (by decide) (by decide), pass1_lookup_po,
      last_hit_eq_getLast]

theorem last_label_match_wins_witness :
    (2 ≤ ([⟨1, "Total: $1.00"⟩, ⟨2, "Total: $2.00"⟩].filterMap hit_total).length) ∧
    lookup_field
        (extract_invoice_fields [⟨1, "Total: $1.00"⟩, ⟨2, "Total: $2.00"⟩] 2).fields
        "total" =
      ([⟨1, "Total: $1.00"⟩, ⟨2, "Total: $2.00"⟩].filterMap hit_total).getLast? :=
  ⟨by decide,
    last_label_match_wins [⟨1, "Total: $1.00"⟩, ⟨2, "Total: $2.00"⟩] 2 "total" hit_total
      (by simp) (by decide)⟩

/-- C6: vendor resolution keeps, across the whole document scan, the
candidate with the highest confidence seen so far, a new candidate replacing
the stored one exactly when its confidence is `>=` the stored one — so the
stored vendor is the *last* candidate attaining the maximal confidence
(`lastMaxCand`), and its confidence bounds every candidate's. -/
theorem vendor_highest_conf_ties_later (ls : List Line) (pages : Nat) :
    lookup_field (extract_invoice_fields ls pages).fields "vendor" =
      (lastMaxCand (vend_cands ls)).map (fun c => mk_vendor_field c.1 c.2.1 c.2.2) ∧
    ∀ f, lookup_field (extract_invoice_fields ls pages).fields "vendor" = some f →
      ∃ mx ∈ vend_cands ls, f = mk_vendor_field mx.1 mx.2.1 mx.2.2 ∧
        ∀ c ∈ vend_cands ls, c.2.1 ≤ mx.2.1 := by
  have h0 : lookup_field (extract_invoice_fields ls pages).fields "vendor" =
      (lastMaxCand (vend_cands ls)).map (fun c => mk_vendor_field c.1 c.2.1 c.2.2) := by
    rw [result_lookup_other _ _ _ (by decide) (by decide), pass1_lookup_vendor,
      vend_fold_lastMax]
  refine ⟨h0, ?_⟩
  intro f hf
  rw [h0] at hf
  cases hm : lastMaxCand (vend_cands ls) with
  | none => rw [hm] at hf; simp at hf
  | some mx =>
      rw [hm] at hf
      injection hf with h1
      refine ⟨mx, lastMaxCand_mem _ _ hm, h1.symm, lastMaxCand_ub _ _ hm⟩

/-- C7: the line `"Invoice Total: $1,234.56"` on page 2 yields a `total`
field with value 1234.56 (123456 cents), units `USD`, type `currency`,
confidence 0.9 (90 hundredths), page 2 and method `regex`. -/
theorem scenario_invoice_total_page2 :
    lookup_field (extract_invoice_fields [⟨2, "Invoice Total: $1,234.56"⟩] 2).fields
        "total" =
      some { name := "total", value := FieldValue.money 123456, type := "currency",
             confidence := 90, page := some 2, units := some "USD",
             method := some "regex", source := some "label+amount" } ∧
    centsToQ 123456 = 1234.56 ∧ confToQ 90 = 0.9 :=
  ⟨by decide, by norm_num [centsToQ], by norm_num [confToQ]⟩

/-- C9: when no PO-labeled line yields a digit-bearing token, the result has
no `poNumber` field and no warning mentioning it — every warning the
pipeline can emit is `total:not_found` or `invoiceDate:not_found`, so
`poNumber` (and likewise `vendor`) is never warned about. -/
theorem po_absent_is_silent (ls : List Line) (pages : Nat)
    (h : ∀ l ∈ ls, hit_po l = none) :
    lookup_field (extract_invoice_fields ls pages).fields "poNumber" = none ∧
    ∀ w ∈ (extract_invoice_fields ls pages).warnings,
      w = "total:not_found" ∨ w = "invoiceDate:not_found" := by
  constructor
  · rw [result_lookup_other _ _ _ (by decide) (by decide), pass1_lookup_po,
      last_hit_eq_getLast]
    have hfm : ls.filterMap hit_po = [] := by
      rw [List.filterMap_eq_nil_iff]
      exact h
    rw [hfm]
    rfl
  · intro w hw
    rw [result_warnings] at hw
    rcases List.mem_append.mp hw with h1 | h1
    · left
      revert h1
      cases lookup_field (pass1 ls) "total" <;> cases fallback_total ls <;>
        intro h1 <;> simp at h1 <;> exact h1
    · right
      revert h1
      cases lookup_field (pass1 ls) "invoiceDate" <;> cases fallback_date ls <;>
        intro h1 <;> simp at h1 <;> exact h1

theorem po_absent_is_silent_witness :
    (∀ l ∈ [(⟨1, "hello world"⟩ : Line)], hit_po l = none) ∧
    lookup_field (extract_invoice_fields [⟨1, "hello world"⟩] 1).fields "poNumber"
      = none :=
  ⟨by decide, (po_absent_is_silent [⟨1, "hello world"⟩] 1 (by decide)).1⟩

/-- A substring is no longer than the string containing it. -/
theorem containsSub_length (n : List Char) :
    ∀ h : List Char, containsSub n h = true → n.length ≤ h.length := by
  intro h
  induction h with
  | nil =>
      intro hs
      unfold containsSub at hs
      rw [List.isEmpty_iff.mp hs]
  | cons c r ih =>
      intro hs
      unfold containsSub at hs
      rcases (Bool.or_eq_true _ _).mp hs with hp | hr
      · have := (List.isPrefixOf_iff_prefix.mp hp).length_le
        simpa using this
      · have := ih hr
        simp only [List.length_cons]
        omega

/-- C10: when a line contains a vendor-introduction phrase (strong tier) but
the candidate — the trimmed text after the first delimiter, or the whole
line — is empty or longer than 80 characters, `_maybe_vendor` returns no
candidate at all: the weak (header-line) tier is not attempted. -/
theorem vendor_strong_tier_gates (txt : String)
    (hhint : VENDOR_HINTS.any
      (fun h => containsSub h.data (txt.data.map Char.toLower)) = true)
    (hbad : pyStrip ((value_after_delimiter txt.data).getD txt.data) = [] ∨
      80 < (pyStrip ((value_after_delimiter txt.data).getD txt.data)).length) :
    maybe_vendor txt = none := by
  have hlen : ¬ txt.data.length < 3 := by
    rcases List.any_eq_true.mp hhint with ⟨hint, hmem, hsub⟩
    have hle : hint.data.length ≤ (txt.data.map Char.toLower).length :=
      containsSub_length _ _ hsub
    rw [List.length_map] at hle
    have h5 : 5 ≤ hint.data.length := by
      simp only [VENDOR_HINTS, List.mem_cons, List.not_mem_nil, or_false] at hmem
      rcases hmem with rfl | rfl | rfl | rfl | rfl <;> decide
    omega
  unfold maybe_vendor
  rw [if_neg hlen, if_pos hhint]
  have hcond : ¬ (!(pyStrip ((value_after_delimiter txt.data).getD txt.data)).isEmpty &&
      (pyStrip ((value_after_delimiter txt.data).getD txt.data)).length ≤ 80) = true := by
    rcases hbad with h | h
    · simp [h]
    · simp
      intro _
      omega
  rw [if_neg hcond]

theorem vendor_strong_tier_gates_witness :
    (VENDOR_HINTS.any (fun h => containsSub h.data
      (("Vendor: " ++ String.mk (List.replicate 81 'A')).data.map Char.toLower)) = true) ∧
    maybe_vendor ("Vendor: " ++ String.mk (List.replicate 81 'A')) = none :=
  ⟨by decide,
    vendor_strong_tier_gates ("Vendor: " ++ String.mk (List.replicate 81 'A'))
      (by decide) (by decide)⟩

/-! ## Character-class facts for the amount claims -/

theorem beq_eq_false_of_pred (P : Char → Bool) (c x : Char)
    (hc : P c = true) (hx : P x = false) : (c == x) = false := by
  cases h : c == x with
  | false => rfl
  | true =>
      have he : c = x := eq_of_beq h
      rw [he, hx] at hc
      exact absurd hc (by simp)

theorem alpha_not_digit (c : Char) (h : c.isAlpha = true) : c.isDigit = false := by
  have e48 : (UInt32.toBitVec 48).toNat = 48 := rfl
  have e57 : (UInt32.toBitVec 57).toNat = 57 := rfl
  have e65 : (UInt32.toBitVec 65).toNat = 65 := rfl
  have e90 : (UInt32.toBitVec 90).toNat = 90 := rfl
  have e97 : (UInt32.toBitVec 97).toNat = 97 := rfl
  have e122 : (UInt32.toBitVec 122).toNat = 122 := rfl
  simp only [Char.isAlpha, Char.isUpper, Char.isLower, Char.isDigit, UInt32.le_def,
    BitVec.le_def] at *
  rcases Bool.or_eq_true_iff.mp h with h1 | h1 <;>
    simp only [Bool.and_eq_true, decide_eq_true_eq] at h1 <;>
    simp only [Bool.and_eq_false_iff, decide_eq_false_iff_not] <;>
    omega

theorem digit_isWordChar (c : Char) (h : c.isDigit = true) : isWordChar c = true := by
  simp [isWordChar, Char.isAlphanum, h]

theorem alpha_isWordChar (c : Char) (h : c.isAlpha = true) : isWordChar c = true := by
  simp [isWordChar, Char.isAlphanum, h]

theorem digit_not_pySpace (c : Char) (h : c.isDigit = true) : isPySpace c = false := by
  unfold isPySpace
  rw [beq_eq_false_of_pred Char.isDigit c ' ' h (by decide),
    beq_eq_false_of_pred Char.isDigit c '\t' h (by decide),
    beq_eq_false_of_pred Char.isDigit c '\n' h (by decide),
    beq_eq_false_of_pred Char.isDigit c '\r' h (by decide),
    beq_eq_false_of_pred Char.isDigit c '\x0b' h (by decide),
    beq_eq_false_of_pred Char.isDigit c '\x0c' h (by decide)]
  rfl

theorem digit_not_currency (c : Char) (h : c.isDigit = true) :
    (c == '$' || c == '£' || c == '€') = false := by
  rw [beq_eq_false_of_pred Char.isDigit c '$' h (by decide),
    beq_eq_false_of_pred Char.isDigit c '£' h (by decide),
    beq_eq_false_of_pred Char.isDigit c '€' h (by decide)]
  rfl

theorem takeWhile_append_of_all (p : Char → Bool) :
    ∀ (xs : List Char) (y : Char) (ys : List Char), (∀ c ∈ xs, p c = true) →
      p y = false → (xs ++ y :: ys).takeWhile p = xs := by
  intro xs
  induction xs with
  | nil =>
      intro y ys _ hy
      simp [List.takeWhile_cons, hy]
  | cons x xs ih =>
      intro y ys hall hy
      have hx : p x = true := hall x (List.mem_cons_self _ _)
      simp only [List.cons_append, List.takeWhile_cons, hx]
      rw [ih y ys (fun c hc => hall c (List.mem_cons_of_mem _ hc)) hy]
      simp

/-- The body of `AMOUNT_RE` fails on a digit run directly followed by a
letter. -/
theorem matchAmountBody_digits_alpha (dsf : List Char) (l : Char) (ls' : List Char)
    (hne : dsf ≠ []) (hds : ∀ c ∈ dsf, c.isDigit = true) (hl : l.isAlpha = true) :
    matchAmountBody (dsf ++ l :: ls') = none := by
  unfold matchAmountBody
  have htw : (dsf ++ l :: ls').takeWhile Char.isDigit = dsf :=
    takeWhile_append_of_all Char.isDigit dsf l ls' hds (alpha_not_digit l hl)
  have hdr : (dsf ++ l :: ls').drop dsf.length = l :: ls' := List.drop_left dsf (l :: ls')
  rw [htw]
  dsimp only
  rw [hdr]
  have hemp : dsf.isEmpty = false := by
    cases dsf with
    | nil => exact absurd rfl hne
    | cons a b => rfl
  rw [if_neg (by simp [hemp])]
  have hlcomma : (l == ',') = false :=
    beq_eq_false_of_pred Char.isAlpha l ',' hl (by decide)
  have hgres : (if dsf.length ≤ 3 then
      match l :: ls' with
      | ',' :: a :: b :: c :: r =>
          if a.isDigit && b.isDigit && c.isDigit then
            firstFracLook
              (moreGroups
                (parseNatDigits dsf * 1000 +
                  (digitVal a * 100 + digitVal b * 10 + digitVal c)) r)
          else none
      | _ => none
    else none) = none := by
    split
    · split
      · rename_i heq
        rw [show l = ',' from (List.cons.injEq .. ▸ heq).1] at hlcomma
        simp at hlcomma
      · rfl
    · rfl
  rw [hgres]
  show tryFracLook (parseNatDigits dsf) (l :: ls') = none
  unfold tryFracLook
  have hldot : (l == '.') = false :=
    beq_eq_false_of_pred Char.isAlpha l '.' hl (by decide)
  have hnw : noWordAhead (l :: ls') = false := by
    show (!isWordChar l) = false
    rw [alpha_isWordChar l hl]
    rfl
  split
  · rename_i heq
    rw [show l = '.' from (List.cons.injEq .. ▸ heq).1] at hldot
    simp at hldot
  · rw [hnw]
    rfl

theorem searchAmountGo_all_word :
    ∀ t : List Char, (∀ c ∈ t, isWordChar c = true) → searchAmountGo true t = none := by
  intro t
  induction t with
  | nil => intro _; rfl
  | cons c r ih =>
      intro hall
      show (match (if true then none else matchAmountAt (c :: r)) with
        | some x => some x
        | none => searchAmountGo (isWordChar c) r) = none
      rw [if_pos rfl, hall c (List.mem_cons_self _ _)]
      exact ih (fun x hx => hall x (List.mem_cons_of_mem _ hx))

/-- C8: the amount normalizer rejects numeric matches adjacent to other word
characters — a digit run followed directly by letters (as in `"12345ABC"`)
never yields an amount — and, being `Option`-valued by construction, it
returns the absent result rather than raising on any unparsable fragment. -/
theorem norm_amount_rejects_word_adjacent (dsf lsf : List Char)
    (hne : dsf ≠ []) (hds : ∀ c ∈ dsf, c.isDigit = true)
    (hlne : lsf ≠ []) (hls : ∀ c ∈ lsf, c.isAlpha = true) :
    norm_amount (String.mk (dsf ++ lsf)) = none := by
  rcases dsf with _ | ⟨d, ds⟩
  · exact absurd rfl hne
  rcases lsf with _ | ⟨l, ls'⟩
  · exact absurd rfl hlne
  have hd : d.isDigit = true := hds d (List.mem_cons_self _ _)
  show searchAmountGo false (d :: (ds ++ l :: ls')) = none
  show (match (if false then none else matchAmountAt (d :: (ds ++ l :: ls'))) with
    | some x => some x
    | none => searchAmountGo (isWordChar d) (ds ++ l :: ls')) = none
  have hat : matchAmountAt (d :: (ds ++ l :: ls')) = none := by
    have hcur : (d == '$' || d == '£' || d == '€') = false := digit_not_currency d hd
    have hdw : (d :: (ds ++ l :: ls')).dropWhile isPySpace = d :: (ds ++ l :: ls') := by
      rw [List.dropWhile_cons, digit_not_pySpace d hd]
      simp
    unfold matchAmountAt
    dsimp only
    rw [if_neg (show ¬((d == '$' || d == '£' || d == '€') = true) by rw [hcur]; simp)]
    dsimp only
    rw [hdw]
    show (matchAmountBody ((d :: ds) ++ l :: ls')).map _ = none
    rw [matchAmountBody_digits_alpha (d :: ds) l ls' (by simp) hds
      (hls l (List.mem_cons_self _ _))]
    rfl
  rw [if_neg (by simp), hat, digit_isWordChar d hd]
  exact searchAmountGo_all_word (ds ++ l :: ls') (fun c hc => by
    rcases List.mem_append.mp hc with h1 | h1
    · exact digit_isWordChar c (hds c (List.mem_cons_of_mem _ h1))
    · exact alpha_isWordChar c (hls c h1))

theorem norm_amount_rejects_word_adjacent_witness :
    ("12345".data ≠ [] ∧ (∀ c ∈ "12345".data, c.isDigit = true) ∧
      "ABC".data ≠ [] ∧ (∀ c ∈ "ABC".data, c.isAlpha = true)) ∧
    norm_amount (String.mk ("12345".data ++ "ABC".data)) = none :=
  ⟨⟨by decide, by decide, by decide, by decide⟩,
    norm_amount_rejects_word_adjacent "12345".data "ABC".data
      (by decide) (by decide) (by decide) (by decide)⟩

/-! ## The month-name grammar on well-formed `Month Day, Year` fragments -/

/-- The day/year tail of the month-name pattern accepts
`" D, Y"` with a 1-2-digit day and a 2-4-digit year, consuming everything. -/
theorem matchDayYear_spec (ds ys : List Char)
    (hds1 : 1 ≤ ds.length) (hds2 : ds.length ≤ 2) (hdsd : ∀ c ∈ ds, c.isDigit = true)
    (hys1 : 2 ≤ ys.length) (hys2 : ys.length ≤ 4) (hysd : ∀ c ∈ ys, c.isDigit = true) :
    matchDayYear (' ' :: (ds ++ ',' :: ' ' :: ys)) =
      some ((parseNatDigits ds, parseNatDigits ys), []) := by
  have s1 : isPySpace ' ' = true := rfl
  have hcd : (',' : Char).isDigit = false := rfl
  rcases ds with _ | ⟨a, _ | ⟨b, _ | ⟨c3, ds3⟩⟩⟩
  all_goals first
    | (exfalso; simp only [List.length_cons, List.length_nil] at hds1 hds2; omega)
    | skip
  all_goals rcases ys with _ | ⟨p, _ | ⟨q, _ | ⟨r, _ | ⟨s, _ | ⟨t5, ys5⟩⟩⟩⟩⟩
  all_goals first
    | (exfalso; simp only [List.length_cons, List.length_nil] at hys1 hys2; omega)
    | skip
  · simp only [matchDayYear, List.cons_append, List.nil_append, List.singleton_append,
      List.takeWhile_cons, s1, hcd, if_true, if_false,
      Bool.false_eq_true, List.takeWhile_nil, List.isEmpty_cons, List.length_cons,
      List.length_nil, List.drop_succ_cons, List.drop_zero, tryLens, takeExactDigits,
      List.take_succ_cons, List.take_zero, List.take_nil, List.drop_nil, List.all_cons,
      List.all_nil, boundaryAfter, noWordAhead, Bool.and_true, Bool.and_false,
      Bool.true_and, Bool.false_and, List.isEmpty_nil, beq_self_eq_true,
      Nat.reduceAdd, Nat.reduceBEq,
      hdsd a (by simp), hysd p (by simp), hysd q (by simp), digit_not_pySpace a (hdsd a (by simp)), digit_not_pySpace p (hysd p (by simp))]
  · simp only [matchDayYear, List.cons_append, List.nil_append, List.singleton_append,
      List.takeWhile_cons, s1, hcd, if_true, if_false,
      Bool.false_eq_true, List.takeWhile_nil, List.isEmpty_cons, List.length_cons,
      List.length_nil, List.drop_succ_cons, List.drop_zero, tryLens, takeExactDigits,
      List.take_succ_cons, List.take_zero, List.take_nil, List.drop_nil, List.all_cons,
      List.all_nil, boundaryAfter, noWordAhead, Bool.and_true, Bool.and_false,
      Bool.true_and, Bool.false_and, List.isEmpty_nil, beq_self_eq_true,
      Nat.reduceAdd, Nat.reduceBEq,
      hdsd a (by simp), hysd p (by simp), hysd q (by simp), hysd r (by simp), digit_not_pySpace a (hdsd a (by simp)), digit_not_pySpace p (hysd p (by simp))]
  · simp only [matchDayYear, List.cons_append, List.nil_append, List.singleton_append,
      List.takeWhile_cons, s1, hcd, if_true, if_false,
      Bool.false_eq_true, List.takeWhile_nil, List.isEmpty_cons, List.length_cons,
      List.length_nil, List.drop_succ_cons, List.drop_zero, tryLens, takeExactDigits,
      List.take_succ_cons, List.take_zero, List.take_nil, List.drop_nil, List.all_cons,
      List.all_nil, boundaryAfter, noWordAhead, Bool.and_true, Bool.and_false,
      Bool.true_and, Bool.false_and, List.isEmpty_nil, beq_self_eq_true,
      Nat.reduceAdd, Nat.reduceBEq,
      hdsd a (by simp), hysd p (by simp), hysd q (by simp), hysd r (by simp), hysd s (by simp), digit_not_pySpace a (hdsd a (by simp)), digit_not_pySpace p (hysd p (by simp))]
  · simp only [matchDayYear, List.cons_append, List.nil_append, List.singleton_append,
      List.takeWhile_cons, s1, hcd, if_true, if_false,
      Bool.false_eq_true, List.takeWhile_nil, List.isEmpty_cons, List.length_cons,
      List.length_nil, List.drop_succ_cons, List.drop_zero, tryLens, takeExactDigits,
      List.take_succ_cons, List.take_zero, List.take_nil, List.drop_nil, List.all_cons,
      List.all_nil, boundaryAfter, noWordAhead, Bool.and_true, Bool.and_false,
      Bool.true_and, Bool.false_and, List.isEmpty_nil, beq_self_eq_true,
      Nat.reduceAdd, Nat.reduceBEq,
      hdsd a (by simp), hdsd b (by simp), hysd p (by simp), hysd q (by simp), digit_not_pySpace a (hdsd a (by simp)), digit_not_pySpace p (hysd p (by simp))]
  · simp only [matchDayYear, List.cons_append, List.nil_append, List.singleton_append,
      List.takeWhile_cons, s1, hcd, if_true, if_false,
      Bool.false_eq_true, List.takeWhile_nil, List.isEmpty_cons, List.length_cons,
      List.length_nil, List.drop_succ_cons, List.drop_zero, tryLens, takeExactDigits,
      List.take_succ_cons, List.take_zero, List.take_nil, List.drop_nil, List.all_cons,
      List.all_nil, boundaryAfter, noWordAhead, Bool.and_true, Bool.and_false,
      Bool.true_and, Bool.false_and, List.isEmpty_nil, beq_self_eq_true,
      Nat.reduceAdd, Nat.reduceBEq,
      hdsd a (by simp), hdsd b (by simp), hysd p (by simp), hysd q (by simp), hysd r (by simp), digit_not_pySpace a (hdsd a (by simp)), digit_not_pySpace p (hysd p (by simp))]
  · simp only [matchDayYear, List.cons_append, List.nil_append, List.singleton_append,
      List.takeWhile_cons, s1, hcd, if_true, if_false,
      Bool.false_eq_true, List.takeWhile_nil, List.isEmpty_cons, List.length_cons,
      List.length_nil, List.drop_succ_cons, List.drop_zero, tryLens, takeExactDigits,
      List.take_succ_cons, List.take_zero, List.take_nil, List.drop_nil, List.all_cons,
      List.all_nil, boundaryAfter, noWordAhead, Bool.and_true, Bool.and_false,
      Bool.true_and, Bool.false_and, List.isEmpty_nil, beq_self_eq_true,
      Nat.reduceAdd, Nat.reduceBEq,
      hdsd a (by simp), hdsd b (by simp), hysd p (by simp), hysd q (by simp), hysd r (by simp), hysd s (by simp), digit_not_pySpace a (hdsd a (by simp)), digit_not_pySpace p (hysd p (by simp))]

theorem findIterGo_nil (matchAt : List Char → Option (α × List Char)) :
    ∀ (f : Nat) (b : Bool), findIterGo matchAt f b [] = [] := by
  intro f b
  cases f with
  | zero => rfl
  | succ f => rfl

/-- A scanner whose very first attempt matches and consumes the whole input
reports exactly that one match. -/
theorem findIter_complete_single (matchAt : List Char → Option (α × List Char))
    (c : Char) (r : List Char) (a : α)
    (h : matchAt (c :: r) = some (a, [])) : findIter matchAt (c :: r) = [a] := by
  show findIterGo matchAt ((c :: r).length + 1) false (c :: r) = [a]
  simp only [findIterGo, Bool.false_eq_true, if_false, h, findIterGo_nil]

/-- The twelve months with their recognized abbreviation and full names. -/
def monthNamePairs : List (Nat × String) :=
  [(1, "Jan"), (1, "January"), (2, "Feb"), (2, "February"), (3, "Mar"), (3, "March"),
   (4, "Apr"), (4, "April"), (5, "May"), (6, "Jun"), (6, "June"), (7, "Jul"),
   (7, "July"), (8, "Aug"), (8, "August"), (9, "Sep"), (9, "Sept"), (9, "September"),
   (10, "Oct"), (10, "October"), (11, "Nov"), (11, "November"), (12, "Dec"),
   (12, "December")]

/-- If a month name reduces the matcher to `matchDayYear` (which every name
of `monthNamePairs` does, by computation) and the day/year tail is
well-formed, the scanner reports the month match. -/
theorem month_case_core (alt : List Char) (pre : List Char) (ds ys : List Char)
    (hM : ∀ rest', matchMonthAt (pre ++ ' ' :: rest') =
      (matchDayYear (' ' :: rest')).map (fun dyr => ((alt, dyr.1.1, dyr.1.2), dyr.2)))
    (hpre : pre ≠ [])
    (hD : matchDayYear (' ' :: (ds ++ ',' :: ' ' :: ys)) =
      some ((parseNatDigits ds, parseNatDigits ys), [])) :
    (alt, parseNatDigits ds, parseNatDigits ys) ∈
      monthDateMatches (String.mk (pre ++ ' ' :: (ds ++ ',' :: ' ' :: ys))) := by
  rcases pre with _ | ⟨c, pr⟩
  · exact absurd rfl hpre
  have h1 : matchMonthAt (c :: (pr ++ ' ' :: (ds ++ ',' :: ' ' :: ys))) =
      some ((alt, parseNatDigits ds, parseNatDigits ys), []) := by
    have h2 := hM (ds ++ ',' :: ' ' :: ys)
    rw [show ((c :: pr) ++ ' ' :: (ds ++ ',' :: ' ' :: ys)) =
      c :: (pr ++ ' ' :: (ds ++ ',' :: ' ' :: ys)) from rfl] at h2
    rw [h2, hD]
    rfl
  show (alt, parseNatDigits ds, parseNatDigits ys) ∈
    findIter matchMonthAt (c :: (pr ++ ' ' :: (ds ++ ',' :: ' ' :: ys)))
  rw [findIter_complete_single matchMonthAt c _ _ h1]
  exact List.mem_singleton.mpr rfl

theorem extract_dates_month_mem (s : String) (alt : List Char) (d y : Nat) (dt : PyDate)
    (hm : (alt, d, y) ∈ monthDateMatches s)
    (hn : norm_date_fragment y (monthNum alt) d = some dt) :
    dt ∈ extract_dates s := by
  unfold extract_dates
  refine List.mem_append.mpr (Or.inr ?_)
  exact List.mem_filterMap.mpr ⟨(alt, d, y), hm, hn⟩

/-- C2 (amended): the month-name date grammar recognizes a month
abbreviation or full month name followed by a day number and a 2-4-digit
year in `Month Day, Year` order only: for every fragment written as
`Month Day, Year` (recognized month name, 1-2-digit day, comma, 2-4-digit
year) that denotes a valid calendar date, `_extract_dates` returns that
date.  The `Day Month Year` order of the original claim is *not*
recognized — see the counterexample. -/
theorem month_day_year_order_recognized (mi : Nat) (name : String)
    (hmem : (mi, name) ∈ monthNamePairs)
    (ds ys : List Char) (dt : PyDate)
    (hds1 : 1 ≤ ds.length) (hds2 : ds.length ≤ 2) (hdsd : ∀ c ∈ ds, c.isDigit = true)
    (hys1 : 2 ≤ ys.length) (hys2 : ys.length ≤ 4) (hysd : ∀ c ∈ ys, c.isDigit = true)
    (hval : norm_date_fragment (parseNatDigits ys) mi (parseNatDigits ds) = some dt) :
    dt ∈ extract_dates (String.mk (name.data ++ ' ' :: (ds ++ ',' :: ' ' :: ys))) := by
  have hD := matchDayYear_spec ds ys hds1 hds2 hdsd hys1 hys2 hysd
  simp only [monthNamePairs, List.mem_cons, List.not_mem_nil, or_false] at hmem
  rcases hmem with h | h | h | h | h | h | h | h | h | h | h | h | h | h | h | h | h | h | h | h | h | h | h | h
  · have h1 : mi = 1 := congrArg Prod.fst h
    have h2 : name = "Jan" := congrArg Prod.snd h
    subst h1
    subst h2
    exact extract_dates_month_mem _ "Jan".data _ _ dt
      (month_case_core "Jan".data "Jan".data ds ys (fun rest' => rfl) (by decide) hD)
      hval
  · have h1 : mi = 1 := congrArg Prod.fst h
    have h2 : name = "January" := congrArg Prod.snd h
    subst h1
    subst h2
    exact extract_dates_month_mem _ "Jan".data _ _ dt
      (month_case_core "Jan".data "January".data ds ys (fun rest' => rfl) (by decide) hD)
      hval
  · have h1 : mi = 2 := congrArg Prod.fst h
    have h2 : name = "Feb" := congrArg Prod.snd h
    subst h1
    subst h2
    exact extract_dates_month_mem _ "Feb".data _ _ dt
      (month_case_core "Feb".data "Feb".data ds ys (fun rest' => rfl) (by decide) hD)
      hval
  · have h1 : mi = 2 := congrArg Prod.fst h
    have h2 : name = "February" := congrArg Prod.snd h
    subst h1
    subst h2
    exact extract_dates_month_mem _ "Feb".data _ _ dt
      (month_case_core "Feb".data "February".data ds ys (fun rest' => rfl) (by decide) hD)
      hval
  · have h1 : mi = 3 := congrArg Prod.fst h
    have h2 : name = "Mar" := congrArg Prod.snd h
    subst h1
    subst h2
    exact extract_dates_month_mem _ "Mar".data _ _ dt
      (month_case_core "Mar".data "Mar".data ds ys (fun rest' => rfl) (by decide) hD)
      hval
  · have h1 : mi = 3 := congrArg Prod.fst h
    have h2 : name = "March" := congrArg Prod.snd h
    subst h1
    subst h2
    exact extract_dates_month_mem _ "Mar".data _ _ dt
      (month_case_core "Mar".data "March".data ds ys (fun rest' => rfl) (by decide) hD)
      hval
  · have h1 : mi = 4 := congrArg Prod.fst h
    have h2 : name = "Apr" := congrArg Prod.snd h
    subst h1
    subst h2
    exact extract_dates_month_mem _ "Apr".data _ _ dt
      (month_case_core "Apr".data "Apr".data ds ys (fun rest' => rfl) (by decide) hD)
      hval
  · have h1 : mi = 4 := congrArg Prod.fst h
    have h2 : name = "April" := congrArg Prod.snd h
    subst h1
    subst h2
    exact extract_dates_month_mem _ "Apr".data _ _ dt
      (month_case_core "Apr".data "April".data ds ys (fun rest' => rfl) (by decide) hD)
      hval
  · have h1 : mi = 5 := congrArg Prod.fst h
    have h2 : name = "May" := congrArg Prod.snd h
    subst h1
    subst h2
    exact extract_dates_month_mem _ "May".data _ _ dt
      (month_case_core "May".data "May".data ds ys (fun rest' => rfl) (by decide) hD)
      hval
  · have h1 : mi = 6 := congrArg Prod.fst h
    have h2 : name = "Jun" := congrArg Prod.snd h
    subst h1
    subst h2
    exact extract_dates_month_mem _ "Jun".data _ _ dt
      (month_case_core "Jun".data "Jun".data ds ys (fun rest' => rfl) (by decide) hD)
      hval
  · have h1 : mi = 6 := congrArg Prod.fst h
    have h2 : name = "June" := congrArg Prod.snd h
    subst h1
    subst h2
    exact extract_dates_month_mem _ "Jun".data _ _ dt
      (month_case_core "Jun".data "June".data ds ys (fun rest' => rfl) (by decide) hD)
      hval
  · have h1 : mi = 7 := congrArg Prod.fst h
    have h2 : name = "Jul" := congrArg Prod.snd h
    subst h1
    subst h2
    exact extract_dates_month_mem _ "Jul".data _ _ dt
      (month_case_core "Jul".data "Jul".data ds ys (fun rest' => rfl) (by decide) hD)
      hval
  · have h1 : mi = 7 := congrArg Prod.fst h
    have h2 : name = "July" := congrArg Prod.snd h
    subst h1
    subst h2
    exact extract_dates_month_mem _ "Jul".data _ _ dt
      (month_case_core "Jul".data "July".data ds ys (fun rest' => rfl) (by decide) hD)
      hval
  · have h1 : mi = 8 := congrArg Prod.fst h
    have h2 : name = "Aug" := congrArg Prod.snd h
    subst h1
    subst h2
    exact extract_dates_month_mem _ "Aug".data _ _ dt
      (month_case_core "Aug".data "Aug".data ds ys (fun rest' => rfl) (by decide) hD)
      hval
  · have h1 : mi = 8 := congrArg Prod.fst h
    have h2 : name = "August" := congrArg Prod.snd h
    subst h1
    subst h2
    exact extract_dates_month_mem _ "Aug".data _ _ dt
      (month_case_core "Aug".data "August".data ds ys (fun rest' => rfl) (by decide) hD)
      hval
  · have h1 : mi = 9 := congrArg Prod.fst h
    have h2 : name = "Sep" := congrArg Prod.snd h
    subst h1
    subst h2
    exact extract_dates_month_mem _ "Sep".data _ _ dt
      (month_case_core "Sep".data "Sep".data ds ys (fun rest' => rfl) (by decide) hD)
      hval
  · have h1 : mi = 9 := congrArg Prod.fst h
    have h2 : name = "Sept" := congrArg Prod.snd h
    subst h1
    subst h2
    exact extract_dates_month_mem _ "Sep".data _ _ dt
      (month_case_core "Sep".data "Sept".data ds ys (fun rest' => rfl) (by decide) hD)
      hval
  · have h1 : mi = 9 := congrArg Prod.fst h
    have h2 : name = "September" := congrArg Prod.snd h
    subst h1
    subst h2
    exact extract_dates_month_mem _ "Sep".data _ _ dt
      (month_case_core "Sep".data "September".data ds ys (fun rest' => rfl) (by decide) hD)
      hval
  · have h1 : mi = 10 := congrArg Prod.fst h
    have h2 : name = "Oct" := congrArg Prod.snd h
    subst h1
    subst h2
    exact extract_dates_month_mem _ "Oct".data _ _ dt
      (month_case_core "Oct".data "Oct".data ds ys (fun rest' => rfl) (by decide) hD)
      hval
  · have h1 : mi = 10 := congrArg Prod.fst h
    have h2 : name = "October" := congrArg Prod.snd h
    subst h1
    subst h2
    exact extract_dates_month_mem _ "Oct".data _ _ dt
      (month_case_core "Oct".data "October".data ds ys (fun rest' => rfl) (by decide) hD)
      hval
  · have h1 : mi = 11 := congrArg Prod.fst h
    have h2 : name = "Nov" := congrArg Prod.snd h
    subst h1
    subst h2
    exact extract_dates_month_mem _ "Nov".data _ _ dt
      (month_case_core "Nov".data "Nov".data ds ys (fun rest' => rfl) (by decide) hD)
      hval
  · have h1 : mi = 11 := congrArg Prod.fst h
    have h2 : name = "November" := congrArg Prod.snd h
    subst h1
    subst h2
    exact extract_dates_month_mem _ "Nov".data _ _ dt
      (month_case_core "Nov".data "November".data ds ys (fun rest' => rfl) (by decide) hD)
      hval
  · have h1 : mi = 12 := congrArg Prod.fst h
    have h2 : name = "Dec" := congrArg Prod.snd h
    subst h1
    subst h2
    exact extract_dates_month_mem _ "Dec".data _ _ dt
      (month_case_core "Dec".data "Dec".data ds ys (fun rest' => rfl) (by decide) hD)
      hval
  · have h1 : mi = 12 := congrArg Prod.fst h
    have h2 : name = "December" := congrArg Prod.snd h
    subst h1
    subst h2
    exact extract_dates_month_mem _ "Dec".data _ _ dt
      (month_case_core "Dec".data "December".data ds ys (fun rest' => rfl) (by decide) hD)
      hval

/-- C2 (counterexample): the fragment `"15 October 2025"` contains the valid
calendar date 2025-10-15 written in `Day Month Year` order, yet the date
normalizer does not return it — the month-name grammar only accepts
`Month Day, Year` order. -/
theorem day_month_year_not_recognized :
    (⟨2025, 10, 15⟩ : PyDate) ∉ extract_dates "15 October 2025" ∧
      norm_date_fragment 2025 10 15 = some ⟨2025, 10, 15⟩ :=
  ⟨by decide, by decide⟩

theorem month_day_year_order_recognized_witness :
    ((10, "October") ∈ monthNamePairs ∧
      norm_date_fragment (parseNatDigits "2025".data) 10 (parseNatDigits "15".data) =
        some ⟨2025, 10, 15⟩) ∧
    (⟨2025, 10, 15⟩ : PyDate) ∈
      extract_dates (String.mk ("October".data ++ ' ' :: ("15".data ++ ',' :: ' ' :: "2025".data))) :=
  ⟨⟨by decide, by decide⟩,
    month_day_year_order_recognized 10 "October" (by decide) "15".data "2025".data
      ⟨2025, 10, 15⟩ (by decide) (by decide) (by decide) (by decide) (by decide)
      (by decide) (by decide)⟩

theorem vendor_highest_conf_ties_later_witness :
    ∃ mx ∈ vend_cands [⟨1, "Invoice from: Acme Corp"⟩],
      mk_vendor_field "Acme Corp" 90 1 = mk_vendor_field mx.1 mx.2.1 mx.2.2 ∧
      ∀ c ∈ vend_cands [⟨1, "Invoice from: Acme Corp"⟩], c.2.1 ≤ mx.2.1 :=
  (vendor_highest_conf_ties_later [⟨1, "Invoice from: Acme Corp"⟩] 1).2
    (mk_vendor_field "Acme Corp" 90 1) (by decide)
